import Mathlib

/-!
Verification of the node execution engine of libnodegl (nodes.c):
lifecycle state machine, per-frame visit / release-prefetch / update
passes, GL pipeline-state scoping around draw, context attachment,
reference counting, and the ALIGN size-rounding macro of node_create.

The C code is shallowly embedded: machine integers become Nat/Int (with
explicit % 2^64 where size_t wrap-around matters), the mutable node
graph becomes an explicit store threaded through the functions,
recursion over the possibly-shared node graph is bounded by an explicit
fuel parameter (`none` = fuel exhausted), and the class lifecycle
callbacks (external collaborators per the specification) are modelled
as trace events plus class-chosen return codes.
-/

namespace NodeGL

/-! ## The ALIGN macro of nodes.c

`ALIGN(v, a)` is `(v) + (((v) + (a) - 1) & ~((v) - 1))`.  All arithmetic
is on size_t; we model it as Nat arithmetic modulo 2^64, with the
bitwise complement of x as (2^64 - 1) - x.  Note the complement is taken
of (v)-1, not (a)-1. -/

def mask64 : Nat := 2 ^ 64 - 1

/-- The ALIGN macro from nodes.c, with 64-bit size_t semantics. -/
def ALIGN (v a : Nat) : Nat :=
  (v + Nat.land ((v + a - 1) % 2 ^ 64) (mask64 - (v - 1) % 2 ^ 64)) % 2 ^ 64

/-! ## GL pipeline-state scoping (ngli_honor_glstates / ngli_restore_glstates)

The GL driver functions (ngli_glGetIntegerv, ngli_glEnable, ...) are
reads and writes of an explicit driver-state record. -/

structure BlendRegs where
  src_rgb : Nat
  dst_rgb : Nat
  src_alpha : Nat
  dst_alpha : Nat
  mode_rgb : Nat
  mode_alpha : Nat
deriving DecidableEq

structure StencilRegs where
  writemask : Nat
  func : Nat
  func_ref : Nat
  func_mask : Nat
  op_sfail : Nat
  op_dpfail : Nat
  op_dppass : Nat
deriving DecidableEq

/-- Tracked GL driver state: capability toggles (glEnable/glDisable,
keyed by GLenum), blend functions/equations, color write mask, polygon
mode, stencil mask/func/ops. -/
@[ext]
structure GLState where
  caps : Nat → Bool
  blend : BlendRegs
  color_mask : Bool × Bool × Bool × Bool
  polygon_mode : Nat
  stencil : StencilRegs

/-- struct glstate private data: first pair component = configured value
(index [0] in the C arrays), second = saved snapshot (index [1]). -/
structure Glstate where
  capability : Nat
  enabled : Bool × Bool
  src_rgb : Nat × Nat
  dst_rgb : Nat × Nat
  src_alpha : Nat × Nat
  dst_alpha : Nat × Nat
  mode_rgb : Nat × Nat
  mode_alpha : Nat × Nat
  rgba : (Bool × Bool × Bool × Bool) × (Bool × Bool × Bool × Bool)
  mode : Nat × Nat
  writemask : Nat × Nat
  func : Nat × Nat
  func_ref : Nat × Nat
  func_mask : Nat × Nat
  op_sfail : Nat × Nat
  op_dpfail : Nat × Nat
  op_dppass : Nat × Nat
deriving DecidableEq

inductive StClass
  | glBlendState
  | glColorState
  | glPolygonModeState
  | glStencilState
  | generic
deriving DecidableEq

def StNode := StClass × Glstate
deriving instance DecidableEq for StNode

def setCap (f : Nat → Bool) (c : Nat) (b : Bool) : Nat → Bool :=
  fun x => if x = c then b else f x

/-- One iteration of the ngli_honor_glstates loop body (nodes.c). -/
def honorOne (s : GLState) (n : StNode) : GLState × StNode :=
  let st := n.2
  match n.1 with
  | .glBlendState =>
    let st := { st with enabled := (st.enabled.1, s.caps st.capability) }
    if st.enabled.1 then
      let st := { st with
        src_rgb := (st.src_rgb.1, s.blend.src_rgb)
        dst_rgb := (st.dst_rgb.1, s.blend.dst_rgb)
        src_alpha := (st.src_alpha.1, s.blend.src_alpha)
        dst_alpha := (st.dst_alpha.1, s.blend.dst_alpha)
        mode_rgb := (st.mode_rgb.1, s.blend.mode_rgb)
        mode_alpha := (st.mode_alpha.1, s.blend.mode_alpha) }
      ({ s with
          caps := setCap s.caps st.capability true
          blend := { src_rgb := st.src_rgb.1, dst_rgb := st.dst_rgb.1
                     src_alpha := st.src_alpha.1, dst_alpha := st.dst_alpha.1
                     mode_rgb := st.mode_rgb.1, mode_alpha := st.mode_alpha.1 } },
        (n.1, st))
    else
      ({ s with caps := setCap s.caps st.capability false }, (n.1, st))
  | .glColorState =>
    let st := { st with rgba := (st.rgba.1, s.color_mask) }
    ({ s with color_mask := st.rgba.1 }, (n.1, st))
  | .glPolygonModeState =>
    let st := { st with mode := (st.mode.1, s.polygon_mode) }
    ({ s with polygon_mode := st.mode.1 }, (n.1, st))
  | .glStencilState =>
    let st := { st with enabled := (st.enabled.1, s.caps st.capability) }
    if st.enabled.1 then
      let st := { st with
        writemask := (st.writemask.1, s.stencil.writemask)
        func := (st.func.1, s.stencil.func)
        func_ref := (st.func_ref.1, s.stencil.func_ref)
        func_mask := (st.func_mask.1, s.stencil.func_mask)
        op_sfail := (st.op_sfail.1, s.stencil.op_sfail)
        op_dpfail := (st.op_dpfail.1, s.stencil.op_dpfail)
        op_dppass := (st.op_dppass.1, s.stencil.op_dppass) }
      ({ s with
          caps := setCap s.caps st.capability true
          stencil := { writemask := st.writemask.1, func := st.func.1
                       func_ref := st.func_ref.1, func_mask := st.func_mask.1
                       op_sfail := st.op_sfail.1, op_dpfail := st.op_dpfail.1
                       op_dppass := st.op_dppass.1 } },
        (n.1, st))
    else
      ({ s with caps := setCap s.caps st.capability false }, (n.1, st))
  | .generic =>
    let st := { st with enabled := (st.enabled.1, s.caps st.capability) }
    if st.enabled.1 ≠ st.enabled.2 then
      ({ s with caps := setCap s.caps st.capability st.enabled.1 }, (n.1, st))
    else
      (s, (n.1, st))

/-- One iteration of the ngli_restore_glstates loop body (nodes.c). -/
def restoreOne (s : GLState) (n : StNode) : GLState :=
  let st := n.2
  match n.1 with
  | .glBlendState =>
    if st.enabled.2 then
      { s with
          caps := setCap s.caps st.capability true
          blend := { src_rgb := st.src_rgb.2, dst_rgb := st.dst_rgb.2
                     src_alpha := st.src_alpha.2, dst_alpha := st.dst_alpha.2
                     mode_rgb := st.mode_rgb.2, mode_alpha := st.mode_alpha.2 } }
    else
      { s with caps := setCap s.caps st.capability false }
  | .glColorState => { s with color_mask := st.rgba.2 }
  | .glPolygonModeState => { s with polygon_mode := st.mode.2 }
  | .glStencilState =>
    if st.enabled.2 then
      { s with
          caps := setCap s.caps st.capability true
          stencil := { writemask := st.writemask.2, func := st.func.2
                       func_ref := st.func_ref.2, func_mask := st.func_mask.2
                       op_sfail := st.op_sfail.2, op_dpfail := st.op_dpfail.2
                       op_dppass := st.op_dppass.2 } }
    else
      { s with caps := setCap s.caps st.capability false }
  | .generic =>
    if st.enabled.1 ≠ st.enabled.2 then
      { s with caps := setCap s.caps st.capability st.enabled.2 }
    else
      s

def ngli_honor_glstates : GLState → List StNode → GLState × List StNode
  | s, [] => (s, [])
  | s, n :: rest =>
    let r := honorOne s n
    let r2 := ngli_honor_glstates r.1 rest
    (r2.1, r.2 :: r2.2)

def ngli_restore_glstates : GLState → List StNode → GLState
  | s, [] => s
  | s, n :: rest => ngli_restore_glstates (restoreOne s n) rest

/-- Tracked-GL-state effect of ngli_node_draw; the class draw callback is
an arbitrary state transformer supplied as an argument. -/
def ngli_node_draw_gl (hasDraw : Bool) (draw : GLState → GLState)
    (s : GLState) (l : List StNode) : GLState :=
  if hasDraw then
    let r := ngli_honor_glstates s l
    ngli_restore_glstates (draw r.1) r.2
  else s

/-- The pieces of driver state an override node reads or writes. -/
inductive Loc
  | cap (c : Nat)
  | blendRegs
  | colorM
  | polyM
  | stencilRegs
deriving DecidableEq

def footprint : StNode → List Loc
  | (.glBlendState, st) => [.cap st.capability, .blendRegs]
  | (.glColorState, _) => [.colorM]
  | (.glPolygonModeState, _) => [.polyM]
  | (.glStencilState, st) => [.cap st.capability, .stencilRegs]
  | (.generic, st) => [.cap st.capability]

/-- The override nodes reference pairwise-distinct driver state. -/
def FpDisjoint : List StNode → Prop :=
  List.Pairwise (fun m n => ∀ x ∈ footprint m, x ∉ footprint n)

def agreeLoc : Loc → GLState → GLState → Prop
  | .cap c, s, t => s.caps c = t.caps c
  | .blendRegs, s, t => s.blend = t.blend
  | .colorM, s, t => s.color_mask = t.color_mask
  | .polyM, s, t => s.polygon_mode = t.polygon_mode
  | .stencilRegs, s, t => s.stencil = t.stencil

def fps (l : List StNode) : List Loc := (l.map footprint).flatten



def enabledMatch (s : GLState) (n : StNode) : Prop :=
  match n.1 with
  | .glBlendState => n.2.enabled.1 = s.caps n.2.capability
  | .glStencilState => n.2.enabled.1 = s.caps n.2.capability
  | _ => True

/-- Per-location restoration condition: the blend (resp. stencil)
auxiliary registers only round-trip through a blend (resp. stencil)
override whose enable flag matches the pre-draw state. -/
def okN (s : GLState) (n : StNode) (loc : Loc) : Prop :=
  match n.1, loc with
  | .glBlendState, .blendRegs => n.2.enabled.1 = s.caps n.2.capability
  | .glStencilState, .stencilRegs => n.2.enabled.1 = s.caps n.2.capability
  | _, _ => True

def okL (s : GLState) (l : List StNode) (loc : Loc) : Prop :=
  ∀ n ∈ l, okN s n loc


/-! ## Node engine model

The mutable node graph is a store (`List Node`) indexed by node ids;
class lifecycle callbacks (external collaborators) are modelled as trace
events plus class-chosen return codes; the `ngli_assert` calls inside
teardown paths are modelled as no-ops (the assertion relevant to claim
C9 is modelled explicitly in `ngl_node_unrefp`).  Recursive graph walks
take an explicit fuel argument; `none` means the fuel ran out. -/

inductive NState
  | uninitialized
  | initialized
  | ready
  | idle
deriving DecidableEq, Repr

/-- Parameter types of params.h relevant to layout (opt_sizes) with LP64
sizes. -/
inductive PType
  | tint | ti64 | tdbl | tstr | tdata | tvec2 | tvec3 | tvec4 | tmat4
  | tnode | tnodelist | tdbllist | tnodedict
deriving DecidableEq, Repr

/-- opt_sizes[] from nodes.c (LP64: pointers 8 bytes, int 4 bytes). -/
def opt_size : PType → Nat
  | .tint => 4
  | .ti64 => 8
  | .tdbl => 8
  | .tstr => 8
  | .tdata => 12
  | .tvec2 => 8
  | .tvec3 => 12
  | .tvec4 => 16
  | .tmat4 => 64
  | .tnode => 8
  | .tnodelist => 12
  | .tdbllist => 12
  | .tnodedict => 8

/-- A schema entry: byte offset into the private data block plus type. -/
structure Param where
  offset : Nat
  ptype : PType
deriving DecidableEq, Repr

/-- A node-typed schema field as seen by the generic traversals (single
reference, ordered list, name-keyed map; map iteration order is its
stored order). -/
inductive ParamEdge
  | pnode (c : Option Nat)
  | pnodelist (cs : List Nat)
  | pnodedict (cs : List Nat)
deriving DecidableEq, Repr

/-- A node class: immutable descriptor with lifecycle callback presence
flags, callback return codes (callbacks are external collaborators:
their only modelled effects are a trace event and a return code), and
the parameter schema / private data size used by reset_non_params. -/
structure ClassSpec where
  has_visit : Bool := false
  has_init : Bool := false
  init_ret : Int := 0
  has_prefetch : Bool := false
  prefetch_ret : Int := 0
  has_release : Bool := false
  has_uninit : Bool := false
  has_update : Bool := false
  update_ret : Int := 0
  has_draw : Bool := false
  params : List Param := []
  priv_size : Nat := 0
deriving DecidableEq, Repr

/-- struct ngl_node: engine-managed bookkeeping plus the graph edges
(node-typed schema fields and the base-parameter glstates list) and the
private data block as bytes. -/
structure Node where
  cls : ClassSpec := {}
  state : NState := .uninitialized
  is_active : Bool := false
  visit_time : Int := -1
  last_update_time : Int := -1
  ctx : Option Nat := none
  refcount : Int := 1
  fields : List ParamEdge := []
  glstates : List Nat := []
  priv : List Nat := []
deriving DecidableEq, Repr

instance : Inhabited Node := ⟨{}⟩

def Store := List Node
deriving instance DecidableEq, Inhabited for Store

def getN (σ : Store) (id : Nat) : Node := List.getD σ id default

def setN (σ : Store) (id : Nat) (n : Node) : Store := List.set σ id n

/-- Class lifecycle callback invocations, recorded as a trace. -/
inductive Ev
  | evInit (id : Nat)
  | evPrefetch (id : Nat)
  | evRelease (id : Nat)
  | evUninit (id : Nat)
  | evUpdate (id : Nat)
deriving DecidableEq, Repr

/-- node_release from nodes.c. -/
def node_release (σ : Store) (id : Nat) : Store × List Ev :=
  let n := getN σ id
  if n.state = .idle then (σ, [])
  else if n.state ≠ .ready then (σ, [])
  else
    (setN σ id { n with state := .idle },
     if n.cls.has_release then [.evRelease id] else [])

/-- memset(base + off, 0, len) on a byte list. -/
def memzero : List Nat → Nat → Nat → List Nat
  | [], _, _ => []
  | b :: bs, off, len =>
    match off with
    | 0 =>
      match len with
      | 0 => b :: bs
      | len' + 1 => 0 :: memzero bs 0 len'
    | off' + 1 => b :: memzero bs off' len

/-- The loop of reset_non_params: walk the schema in order, zeroing the
gap before each parameter, then the tail after the last one. -/
def reset_loop (psize : Nat) : List Param → Nat → List Nat → List Nat
  | [], cur, bytes => memzero bytes cur (psize - cur)
  | p :: rest, cur, bytes =>
    reset_loop psize rest (p.offset + opt_size p.ptype) (memzero bytes cur (p.offset - cur))

/-- reset_non_params from nodes.c. -/
def reset_non_params (n : Node) : Node :=
  { n with priv := reset_loop n.cls.priv_size n.cls.params 0 n.priv }

/-- node_uninit from nodes.c: release, class uninit callback, reset of
non-parameter private bytes, state back to UNINITIALIZED. -/
def node_uninit (σ : Store) (id : Nat) : Store × List Ev :=
  let n := getN σ id
  if n.state = .uninitialized then (σ, [])
  else
    let r := node_release σ id
    let n1 := getN r.1 id
    (setN r.1 id (reset_non_params { n1 with state := .uninitialized }),
     r.2 ++ if n1.cls.has_uninit then [.evUninit id] else [])

mutual

/-- ngli_node_init from nodes.c. -/
def ngli_node_init : Nat → Store → Nat → Option (Store × Int × List Ev)
  | 0, _, _ => none
  | fuel + 1, σ, id =>
    let n := getN σ id
    if n.state = .initialized then some (σ, 0, [])
    else if n.state ≠ .uninitialized then some (σ, 0, [])
    else
      let cb : Int × List Ev :=
        if n.cls.has_init then (n.cls.init_ret, [.evInit id]) else (0, [])
      if cb.1 < 0 then some (σ, cb.1, cb.2)
      else
        match init_glstates fuel σ n.glstates with
        | none => none
        | some (σ1, ret, tr) =>
          if ret < 0 then some (σ1, ret, cb.2 ++ tr)
          else some (setN σ1 id { getN σ1 id with state := .initialized }, 0, cb.2 ++ tr)

/-- The glstates loop inside ngli_node_init. -/
def init_glstates : Nat → Store → List Nat → Option (Store × Int × List Ev)
  | 0, _, _ => none
  | _ + 1, σ, [] => some (σ, 0, [])
  | fuel + 1, σ, c :: rest =>
    match ngli_node_init fuel σ c with
    | none => none
    | some (σ1, ret, tr) =>
      if ret < 0 then some (σ1, ret, tr)
      else
        match init_glstates fuel σ1 rest with
        | none => none
        | some (σ2, ret2, tr2) => some (σ2, ret2, tr ++ tr2)

end

/-- node_prefetch from nodes.c: no-op if READY, else init then class
prefetch callback then state := READY. -/
def node_prefetch (fuel : Nat) (σ : Store) (id : Nat) : Option (Store × Int × List Ev) :=
  let n := getN σ id
  if n.state = .ready then some (σ, 0, [])
  else
    match ngli_node_init fuel σ id with
    | none => none
    | some (σ1, ret, tr) =>
      if ret < 0 then some (σ1, ret, tr)
      else
        let n1 := getN σ1 id
        let cb : Int × List Ev :=
          if n1.cls.has_prefetch then (n1.cls.prefetch_ret, [.evPrefetch id]) else (0, [])
        if cb.1 < 0 then some (σ1, cb.1, tr ++ cb.2)
        else some (setN σ1 id { n1 with state := .ready }, 0, tr ++ cb.2)

/-- ngli_node_update from nodes.c. -/
def ngli_node_update : Nat → Store → Nat → Int → Option (Store × Int × List Ev)
  | 0, _, _, _ => none
  | fuel + 1, σ, id, t =>
    match ngli_node_init fuel σ id with
    | none => none
    | some (σ1, ret, tr) =>
      if ret < 0 then some (σ1, ret, tr)
      else
        let n := getN σ1 id
        if n.cls.has_update then
          if n.last_update_time ≠ t then
            match node_prefetch fuel σ1 id with
            | none => none
            | some (σ2, r2, tr2) =>
              if r2 < 0 then some (σ2, r2, tr ++ tr2)
              else
                if n.cls.update_ret < 0 then
                  some (σ2, n.cls.update_ret, tr ++ tr2 ++ [.evUpdate id])
                else
                  some (setN σ2 id { getN σ2 id with last_update_time := t }, 0,
                        tr ++ tr2 ++ [.evUpdate id])
          else
            some (setN σ1 id { n with last_update_time := t }, 0, tr)
        else some (σ1, 0, tr)

mutual

/-- ngli_node_visit from nodes.c (default path; class-custom visit
callbacks are external and unmodelled: hitting one yields `none`). -/
def ngli_node_visit : Nat → Store → Nat → Option Nat → Int → Option (Store × Int × List Ev)
  | 0, _, _, _, _ => none
  | fuel + 1, σ, id, fromNode, t =>
    match ngli_node_init fuel σ id with
    | none => none
    | some (σ0, ret, tr0) =>
      if ret < 0 then some (σ0, ret, tr0)
      else
        let n := getN σ0 id
        if n.cls.has_visit then none
        else
          let act := match fromNode with
            | some p => (getN σ0 p).is_active
            | none => true
          let σ1 := setN σ0 id { n with is_active := act, visit_time := t }
          match visit_fields fuel σ1 n.fields id t with
          | none => none
          | some (σ2, r2, tr2) => some (σ2, r2, tr0 ++ tr2)

/-- The parameter walk of ngli_node_visit, in schema order. -/
def visit_fields : Nat → Store → List ParamEdge → Nat → Int → Option (Store × Int × List Ev)
  | 0, _, _, _, _ => none
  | _ + 1, σ, [], _, _ => some (σ, 0, [])
  | fuel + 1, σ, f :: rest, id, t =>
    match f with
    | .pnode none => visit_fields fuel σ rest id t
    | .pnode (some c) =>
      match ngli_node_visit fuel σ c (some id) t with
      | none => none
      | some (σ1, r1, tr1) =>
        if r1 < 0 then some (σ1, r1, tr1)
        else
          match visit_fields fuel σ1 rest id t with
          | none => none
          | some (σ2, r2, tr2) => some (σ2, r2, tr1 ++ tr2)
    | .pnodelist cs =>
      match visit_ids fuel σ cs id t with
      | none => none
      | some (σ1, r1, tr1) =>
        if r1 < 0 then some (σ1, r1, tr1)
        else
          match visit_fields fuel σ1 rest id t with
          | none => none
          | some (σ2, r2, tr2) => some (σ2, r2, tr1 ++ tr2)
    | .pnodedict cs =>
      match visit_ids fuel σ cs id t with
      | none => none
      | some (σ1, r1, tr1) =>
        if r1 < 0 then some (σ1, r1, tr1)
        else
          match visit_fields fuel σ1 rest id t with
          | none => none
          | some (σ2, r2, tr2) => some (σ2, r2, tr1 ++ tr2)

/-- Visiting the elements of a node list / node dict field. -/
def visit_ids : Nat → Store → List Nat → Nat → Int → Option (Store × Int × List Ev)
  | 0, _, _, _, _ => none
  | _ + 1, σ, [], _, _ => some (σ, 0, [])
  | fuel + 1, σ, c :: cs, id, t =>
    match ngli_node_visit fuel σ c (some id) t with
    | none => none
    | some (σ1, r1, tr1) =>
      if r1 < 0 then some (σ1, r1, tr1)
      else
        match visit_ids fuel σ1 cs id t with
        | none => none
        | some (σ2, r2, tr2) => some (σ2, r2, tr1 ++ tr2)

end

mutual

/-- ngli_node_honor_release_prefetch from nodes.c. -/
def ngli_node_honor_release_prefetch : Nat → Store → Nat → Int → Option (Store × Int × List Ev)
  | 0, _, _, _ => none
  | fuel + 1, σ, id, t =>
    let n := getN σ id
    if n.visit_time ≠ t then some (σ, 0, [])
    else
      match hrp_fields fuel σ n.fields t with
      | none => none
      | some (σ1, r1, tr1) =>
        if r1 < 0 then some (σ1, r1, tr1)
        else
          if (getN σ1 id).is_active then
            match node_prefetch fuel σ1 id with
            | none => none
            | some (σ2, r2, tr2) => some (σ2, r2, tr1 ++ tr2)
          else
            let r := node_release σ1 id
            some (r.1, 0, tr1 ++ r.2)

/-- The parameter walk of ngli_node_honor_release_prefetch. -/
def hrp_fields : Nat → Store → List ParamEdge → Int → Option (Store × Int × List Ev)
  | 0, _, _, _ => none
  | _ + 1, σ, [], _ => some (σ, 0, [])
  | fuel + 1, σ, f :: rest, t =>
    match f with
    | .pnode none => hrp_fields fuel σ rest t
    | .pnode (some c) =>
      match ngli_node_honor_release_prefetch fuel σ c t with
      | none => none
      | some (σ1, r1, tr1) =>
        if r1 < 0 then some (σ1, r1, tr1)
        else
          match hrp_fields fuel σ1 rest t with
          | none => none
          | some (σ2, r2, tr2) => some (σ2, r2, tr1 ++ tr2)
    | .pnodelist cs =>
      match hrp_ids fuel σ cs t with
      | none => none
      | some (σ1, r1, tr1) =>
        if r1 < 0 then some (σ1, r1, tr1)
        else
          match hrp_fields fuel σ1 rest t with
          | none => none
          | some (σ2, r2, tr2) => some (σ2, r2, tr1 ++ tr2)
    | .pnodedict cs =>
      match hrp_ids fuel σ cs t with
      | none => none
      | some (σ1, r1, tr1) =>
        if r1 < 0 then some (σ1, r1, tr1)
        else
          match hrp_fields fuel σ1 rest t with
          | none => none
          | some (σ2, r2, tr2) => some (σ2, r2, tr1 ++ tr2)

/-- Reconciling the elements of a node list / node dict field. -/
def hrp_ids : Nat → Store → List Nat → Int → Option (Store × Int × List Ev)
  | 0, _, _, _ => none
  | _ + 1, σ, [], _ => some (σ, 0, [])
  | fuel + 1, σ, c :: cs, t =>
    match ngli_node_honor_release_prefetch fuel σ c t with
    | none => none
    | some (σ1, r1, tr1) =>
      if r1 < 0 then some (σ1, r1, tr1)
      else
        match hrp_ids fuel σ1 cs t with
        | none => none
        | some (σ2, r2, tr2) => some (σ2, r2, tr1 ++ tr2)

end

mutual

/-- node_set_ctx from nodes.c: attach (ctx = some c) or detach
(ctx = none), then recurse through the node-typed fields and the base
glstates parameter. -/
def node_set_ctx : Nat → Store → Nat → Option Nat → Option (Store × Int × List Ev)
  | 0, _, _, _ => none
  | fuel + 1, σ, id, ctx =>
    let n := getN σ id
    let head : Option (Store × List Ev) :=
      match ctx with
      | some c =>
        if n.ctx = none then some (setN σ id { n with ctx := some c }, [])
        else if n.ctx = some c then some (σ, [])
        else none
      | none =>
        let r := node_uninit σ id
        some (setN r.1 id { getN r.1 id with ctx := none }, r.2)
    match head with
    | none => some (σ, -1, [])
    | some (σ0, evs) =>
      match ctx_fields fuel σ0 n.fields ctx with
      | none => none
      | some (σ1, r1, tr1) =>
        if r1 < 0 then some (σ1, r1, evs ++ tr1)
        else
          match ctx_ids fuel σ1 n.glstates ctx with
          | none => none
          | some (σ2, r2, tr2) => some (σ2, r2, evs ++ tr1 ++ tr2)

/-- node_set_children_ctx over the class parameter schema. -/
def ctx_fields : Nat → Store → List ParamEdge → Option Nat → Option (Store × Int × List Ev)
  | 0, _, _, _ => none
  | _ + 1, σ, [], _ => some (σ, 0, [])
  | fuel + 1, σ, f :: rest, ctx =>
    match f with
    | .pnode none => ctx_fields fuel σ rest ctx
    | .pnode (some c) =>
      match node_set_ctx fuel σ c ctx with
      | none => none
      | some (σ1, r1, tr1) =>
        if r1 < 0 then some (σ1, r1, tr1)
        else
          match ctx_fields fuel σ1 rest ctx with
          | none => none
          | some (σ2, r2, tr2) => some (σ2, r2, tr1 ++ tr2)
    | .pnodelist cs =>
      match ctx_ids fuel σ cs ctx with
      | none => none
      | some (σ1, r1, tr1) =>
        if r1 < 0 then some (σ1, r1, tr1)
        else
          match ctx_fields fuel σ1 rest ctx with
          | none => none
          | some (σ2, r2, tr2) => some (σ2, r2, tr1 ++ tr2)
    | .pnodedict cs =>
      match ctx_ids fuel σ cs ctx with
      | none => none
      | some (σ1, r1, tr1) =>
        if r1 < 0 then some (σ1, r1, tr1)
        else
          match ctx_fields fuel σ1 rest ctx with
          | none => none
          | some (σ2, r2, tr2) => some (σ2, r2, tr1 ++ tr2)

/-- Attaching/detaching the elements of a node list / node dict field. -/
def ctx_ids : Nat → Store → List Nat → Option Nat → Option (Store × Int × List Ev)
  | 0, _, _, _ => none
  | _ + 1, σ, [], _ => some (σ, 0, [])
  | fuel + 1, σ, c :: cs, ctx =>
    match node_set_ctx fuel σ c ctx with
    | none => none
    | some (σ1, r1, tr1) =>
      if r1 < 0 then some (σ1, r1, tr1)
      else
        match ctx_ids fuel σ1 cs ctx with
        | none => none
        | some (σ2, r2, tr2) => some (σ2, r2, tr1 ++ tr2)

end

/-- ngli_node_attach_ctx from nodes.c. -/
def ngli_node_attach_ctx (fuel : Nat) (σ : Store) (id : Nat) (c : Nat) :
    Option (Store × Int × List Ev) :=
  node_set_ctx fuel σ id (some c)

/-- ngli_node_detach_ctx from nodes.c (asserts the result is 0). -/
def ngli_node_detach_ctx (fuel : Nat) (σ : Store) (id : Nat) :
    Option (Store × Int × List Ev) :=
  node_set_ctx fuel σ id none

/-- ngl_node_param_set / ngl_node_param_add from nodes.c.  The
string-keyed lookup and the typed write live in params.c (an external
collaborator, not under src/); they are abstracted as: whether the key
was found, an arbitrary rewrite of the private bytes, and the return
code of the write.  On a found key the node is unconditionally
uninitialized after the write, even if the write failed. -/
def ngl_node_param_set_model (σ : Store) (id : Nat) (found : Bool)
    (setter : List Nat → List Nat) (setRet : Int) : Store × Int × List Ev :=
  if found then
    let n := getN σ id
    let σa := setN σ id { n with priv := setter n.priv }
    let r := node_uninit σa id
    (r.1, setRet, r.2)
  else (σ, -1, [])

/-- ngl_node_ref from nodes.c. -/
def ngl_node_ref (σ : Store) (id : Nat) : Store × Nat :=
  let n := getN σ id
  (setN σ id { n with refcount := n.refcount + 1 }, id)

structure UnrefResult where
  store : Store
  nodep : Option Nat
  deleted : Bool
  assertOk : Bool
deriving DecidableEq

/-- ngl_node_unrefp from nodes.c: `delete = node->refcount-- == 1`; the
freeing branch asserts `!node->ctx` (`assertOk`); `*nodep` is nulled.
The freed memory itself is not modelled: the store keeps the node record
with its decremented refcount, and `deleted` reports the free. -/
def ngl_node_unrefp (σ : Store) (nodep : Option Nat) : UnrefResult :=
  match nodep with
  | none => { store := σ, nodep := none, deleted := false, assertOk := true }
  | some id =>
    let n := getN σ id
    let del := n.refcount = 1
    { store := setN σ id { n with refcount := n.refcount - 1 },
      nodep := none,
      deleted := del,
      assertOk := if del then n.ctx.isNone else true }


/-! ## Concrete example inputs used by witnesses and counterexamples -/

/-- A driver state with blend enabled (capability 1) and visibly non-zero
blend registers. -/
def glMixedState : GLState where
  caps := fun c => c == 1
  blend := { src_rgb := 5, dst_rgb := 5, src_alpha := 5, dst_alpha := 5
             mode_rgb := 5, mode_alpha := 5 }
  color_mask := (true, true, true, true)
  polygon_mode := 9
  stencil := { writemask := 4, func := 4, func_ref := 4, func_mask := 4
               op_sfail := 4, op_dpfail := 4, op_dppass := 4 }

/-- A GLBlendState override that disables the currently-enabled blend
capability; its snapshot slots still hold their initial zeroes. -/
def glBlendOffNode : StNode :=
  (.glBlendState,
   { capability := 1
     enabled := (false, false)
     src_rgb := (7, 0), dst_rgb := (7, 0), src_alpha := (7, 0), dst_alpha := (7, 0)
     mode_rgb := (7, 0), mode_alpha := (7, 0)
     rgba := ((true, true, true, true), (true, true, true, true))
     mode := (0, 0)
     writemask := (0, 0), func := (0, 0), func_ref := (0, 0), func_mask := (0, 0)
     op_sfail := (0, 0), op_dpfail := (0, 0), op_dppass := (0, 0) })

/-- A generic capability override (capability 2, currently disabled,
override enables it). -/
def glGenericOnNode : StNode :=
  (.generic,
   { capability := 2
     enabled := (true, false)
     src_rgb := (0, 0), dst_rgb := (0, 0), src_alpha := (0, 0), dst_alpha := (0, 0)
     mode_rgb := (0, 0), mode_alpha := (0, 0)
     rgba := ((true, true, true, true), (true, true, true, true))
     mode := (0, 0)
     writemask := (0, 0), func := (0, 0), func_ref := (0, 0), func_mask := (0, 0)
     op_sfail := (0, 0), op_dpfail := (0, 0), op_dppass := (0, 0) })

/-! Engine-level auxiliary definitions and example stores. -/

/-- A node with its state field scrubbed: two nodes with equal
stateErase differ at most in their lifecycle state. -/
def stateErase (n : Node) : Node := { n with state := .uninitialized }

/-- The two bookkeeping assignments of ngli_node_visit:
is_active := act and visit_time := t on node c. -/
def visitSet (σ : Store) (c : Nat) (act : Bool) (t : Int) : Store :=
  setN σ c { getN σ c with is_active := act, visit_time := t }

/-- The schema is laid out in ascending offset order with
non-overlapping parameters, all inside the private data block
(size sz) — the build-time invariant reset_non_params relies on. -/
def sortedFrom (sz : Nat) : Nat → List Param → Prop
  | cur, [] => cur ≤ sz
  | cur, p :: rest => cur ≤ p.offset ∧ sortedFrom sz (p.offset + opt_size p.ptype) rest

/-- Byte i belongs to some schema parameter. -/
def covered (params : List Param) (i : Nat) : Prop :=
  ∃ p ∈ params, p.offset ≤ i ∧ i < p.offset + opt_size p.ptype

/-- Every node in the store is either unattached or attached to context c. -/
def CtxCompat (σ : Store) (c : Nat) : Prop :=
  ∀ j, (getN σ j).ctx = none ∨ (getN σ j).ctx = some c

/-- Prefetch-event bookkeeping across one engine step from store σ to
store σ' with return r and trace tr, for an arbitrary observed node c:
a READY-and-active c is untouched and receives no prefetch event; at
most one prefetch event for c is emitted; and if one was emitted on a
non-failing step, c ended READY and active. -/
def PF (σ σ' : Store) (r : Int) (tr : List Ev) (c : Nat) : Prop :=
  ((getN σ c).state = .ready → (getN σ c).is_active = true →
     getN σ' c = getN σ c ∧ tr.count (Ev.evPrefetch c) = 0) ∧
  tr.count (Ev.evPrefetch c) ≤ 1 ∧
  (tr.count (Ev.evPrefetch c) = 1 → ¬ r < 0 →
     (getN σ' c).state = .ready ∧ (getN σ' c).is_active = true)

/-! Concrete stores for witnesses and counterexamples. -/

def clsP : ClassSpec := { has_prefetch := true, has_update := true }

/-- Diamond DAG 0 -> \x7b1, 2\x7d -> 3 after a visit at t = 7. -/
def diamondVisited : Store :=
  [ { cls := clsP, ctx := some 1, fields := [.pnodelist [1, 2]],
      is_active := true, visit_time := 7, state := .initialized },
    { cls := clsP, ctx := some 1, fields := [.pnode (some 3)],
      is_active := true, visit_time := 7, state := .initialized },
    { cls := clsP, ctx := some 1, fields := [.pnode (some 3)],
      is_active := true, visit_time := 7, state := .initialized },
    { cls := clsP, ctx := some 1, is_active := true, visit_time := 7,
      state := .initialized } ]

def diamondReady : Store :=
  [ { cls := clsP, ctx := some 1, fields := [.pnodelist [1, 2]],
      is_active := true, visit_time := 7, state := .ready },
    { cls := clsP, ctx := some 1, fields := [.pnode (some 3)],
      is_active := true, visit_time := 7, state := .ready },
    { cls := clsP, ctx := some 1, fields := [.pnode (some 3)],
      is_active := true, visit_time := 7, state := .ready },
    { cls := clsP, ctx := some 1, is_active := true, visit_time := 7,
      state := .ready } ]

def diamondTrace : List Ev :=
  [.evPrefetch 3, .evPrefetch 1, .evPrefetch 2, .evPrefetch 0]

def updStore : Store := [{ cls := clsP, ctx := some 1 }]

def updStoreAfter : Store :=
  [{ cls := clsP, ctx := some 1, state := .ready, last_update_time := 5 }]

def updTrace : List Ev := [.evPrefetch 0, .evUpdate 0]

def noUpdStore : Store := [{ ctx := some 1 }]

def noUpdAfter : Store := [{ ctx := some 1, state := .initialized }]

/-- Parents 0 (active) and 1 (inactive) sharing leaf child 2. -/
def lwwStore : Store :=
  [ { ctx := some 1, is_active := true },
    { ctx := some 1 },
    { ctx := some 1, state := .initialized } ]

def c7cls : ClassSpec :=
  { has_release := true, has_uninit := true,
    params := [{ offset := 4, ptype := .tint }], priv_size := 12 }

def c7Store : Store :=
  [{ cls := c7cls, ctx := some 1, state := .ready,
     priv := [9, 9, 9, 9, 9, 9, 9, 9, 9, 9, 9, 9] }]

/-- Node 0 attached to context 1 but its child is owned by context 2. -/
def c8Bad : Store :=
  [ { ctx := some 1, fields := [.pnode (some 1)] }, { ctx := some 2 } ]

def c8Good : Store := [ { ctx := some 1, fields := [.pnode (some 1)] }, {} ]

def c8GoodAfter : Store :=
  [ { ctx := some 1, fields := [.pnode (some 1)] }, { ctx := some 1 } ]

def c9Store : Store := [ { refcount := 2 } ]


/-! ## Theorems -/

/-! ### C10: the ALIGN size-rounding macro -/

theorem pow_dvd_land_right (k x y : Nat) (h : 2 ^ k ∣ y) : 2 ^ k ∣ Nat.land x y := by
  rw [Nat.dvd_iff_mod_eq_zero] at h ⊢
  apply Nat.eq_of_testBit_eq
  intro i
  rw [Nat.testBit_mod_two_pow, Nat.zero_testBit]
  rcases Nat.lt_or_ge i k with hik | hik
  · have hy : y.testBit i = false := by
      have := Nat.testBit_mod_two_pow y k i
      rw [h, Nat.zero_testBit] at this
      simpa [hik] using this.symm
    show (decide (i < k) && (x &&& y).testBit i) = false
    rw [Nat.testBit_land, hy]
    simp
  · simp [Nat.not_lt.mpr hik]

/-- C10 (counterexample): the claim asserts that for every size v >= 1
and power-of-two alignment a, ALIGN(v, a) is a multiple of a.  At
v = 3, a = 16 the macro yields 19, which is not a multiple of 16 (the
complement in the mask is taken of v-1 instead of a-1). -/
theorem C10_counterexample : ALIGN 3 16 = 19 ∧ ¬ (16 ∣ ALIGN 3 16) := by
  constructor
  · decide
  · decide

/-- C10 (amended): for v >= 1 that is itself a multiple of the
power-of-two alignment a = 2^k (k <= 32, v < 2^32 so that no size_t
wrap-around occurs), ALIGN(v, a) is a multiple of a and at least v;
consequently, whenever the base pointer returned by aligned_allocz is
a-aligned, the node_create assertion on node->priv_data = node + ALIGN
also holds (base + ALIGN is a multiple of a). -/
theorem C10_align_correct (k v : Nat) (hk : k ≤ 32) (hv1 : 1 ≤ v) (hv : v < 2 ^ 32)
    (hdvd : 2 ^ k ∣ v) :
    2 ^ k ∣ ALIGN v (2 ^ k) ∧ v ≤ ALIGN v (2 ^ k) ∧
      ∀ base, 2 ^ k ∣ base → 2 ^ k ∣ base + ALIGN v (2 ^ k) := by
  have hx : v + 2 ^ k - 1 < 2 ^ 64 := by
    have h1 : (2:Nat) ^ k ≤ 2 ^ 32 := Nat.pow_le_pow_right (by norm_num) hk
    have h2 : (2:Nat) ^ 32 ≤ 2 ^ 64 := Nat.pow_le_pow_right (by norm_num) (by norm_num)
    omega
  have hv64 : v - 1 < 2 ^ 64 := by
    have h2 : (2:Nat) ^ 32 ≤ 2 ^ 64 := Nat.pow_le_pow_right (by norm_num) (by norm_num)
    omega
  have hmask : mask64 - (v - 1) % 2 ^ 64 = 2 ^ 64 - v := by
    rw [Nat.mod_eq_of_lt hv64]
    simp only [mask64]
    omega
  have hy : 2 ^ k ∣ 2 ^ 64 - v :=
    Nat.dvd_sub' (Nat.pow_dvd_pow 2 (by omega)) hdvd
  have hland : 2 ^ k ∣ Nat.land ((v + 2 ^ k - 1) % 2 ^ 64) (mask64 - (v - 1) % 2 ^ 64) := by
    rw [hmask]
    exact pow_dvd_land_right _ _ _ hy
  have hlandle : Nat.land ((v + 2 ^ k - 1) % 2 ^ 64) (mask64 - (v - 1) % 2 ^ 64) ≤
      v + 2 ^ k - 1 := by
    calc Nat.land ((v + 2 ^ k - 1) % 2 ^ 64) (mask64 - (v - 1) % 2 ^ 64)
        ≤ (v + 2 ^ k - 1) % 2 ^ 64 := Nat.and_le_left
      _ = v + 2 ^ k - 1 := Nat.mod_eq_of_lt hx
  have hsum : v + Nat.land ((v + 2 ^ k - 1) % 2 ^ 64) (mask64 - (v - 1) % 2 ^ 64) < 2 ^ 64 := by
    have h1 : (2:Nat) ^ k ≤ 2 ^ 32 := Nat.pow_le_pow_right (by norm_num) hk
    have h2 : (2:Nat) ^ 32 ≤ 2 ^ 64 := Nat.pow_le_pow_right (by norm_num) (by norm_num)
    have h3 : (2:Nat) ^ 32 + 2 ^ 32 + 2 ^ 32 ≤ 2 ^ 64 := by
      have : (2:Nat) ^ 34 ≤ 2 ^ 64 := Nat.pow_le_pow_right (by norm_num) (by norm_num)
      have : (2:Nat) ^ 32 + 2 ^ 32 + 2 ^ 32 ≤ 2 ^ 34 := by norm_num
      omega
    omega
  have halign : ALIGN v (2 ^ k) =
      v + Nat.land ((v + 2 ^ k - 1) % 2 ^ 64) (mask64 - (v - 1) % 2 ^ 64) := by
    rw [ALIGN, Nat.mod_eq_of_lt hsum]
  refine ⟨?_, ?_, ?_⟩
  · rw [halign]
    exact Nat.dvd_add hdvd hland
  · rw [halign]
    exact Nat.le_add_right _ _
  · intro base hb
    rw [halign]
    exact Nat.dvd_add hb (Nat.dvd_add hdvd hland)

/-- Witness for C10_align_correct at k = 4 (a = 16 = NGLI_ALIGN), v = 48. -/
theorem C10_align_witness :
    (4 ≤ 32 ∧ 1 ≤ 48 ∧ 48 < 2 ^ 32 ∧ 2 ^ 4 ∣ 48) ∧
      2 ^ 4 ∣ ALIGN 48 (2 ^ 4) ∧ 48 ≤ ALIGN 48 (2 ^ 4) :=
  ⟨⟨by decide, by decide, by norm_num, by decide⟩,
   (C10_align_correct 4 48 (by decide) (by decide) (by norm_num) (by decide)).1,
   (C10_align_correct 4 48 (by decide) (by decide) (by norm_num) (by decide)).2.1⟩

/-! ### C1: pipeline-state scoping round trip -/

/-- C1 (counterexample): a single GLBlendState override that disables
the currently-enabled blend capability (pairwise-distinct state holds
trivially; the draw callback is the identity, i.e. restores everything
it changes), yet ngli_node_draw does not restore the blend function
registers: they are overwritten from the never-saved snapshot slots. -/
theorem C1_counterexample :
    FpDisjoint [glBlendOffNode] ∧
      ngli_node_draw_gl true (fun x => x) glMixedState [glBlendOffNode] ≠ glMixedState := by
  constructor
  · simp [FpDisjoint]
  · intro h
    have hb : (ngli_node_draw_gl true (fun x => x) glMixedState
        [glBlendOffNode]).blend.src_rgb = glMixedState.blend.src_rgb :=
      congrArg (fun g => g.blend.src_rgb) h
    have h0 : (ngli_node_draw_gl true (fun x => x) glMixedState [glBlendOffNode]).blend.src_rgb
        = 0 := rfl
    have h5 : glMixedState.blend.src_rgb = 5 := rfl
    rw [h0, h5] at hb
    exact absurd hb (by decide)

theorem agreeLoc_refl (loc : Loc) (s : GLState) : agreeLoc loc s s := by
  cases loc <;> rfl

theorem agreeLoc_trans {loc : Loc} {s t u : GLState}
    (h1 : agreeLoc loc s t) (h2 : agreeLoc loc t u) : agreeLoc loc s u := by
  cases loc <;> exact h1.trans h2

/-- A blend or stencil override whose configured enable equals the
current driver enable state of its capability. -/
theorem honorOne_class (s : GLState) (n : StNode) :
    ((honorOne s n).2).1 = n.1 ∧ ((honorOne s n).2).2.capability = n.2.capability := by
  obtain ⟨cls, st⟩ := n
  cases cls <;> simp [honorOne] <;> split_ifs <;> simp

theorem honorOne_footprint (s : GLState) (n : StNode) :
    footprint (honorOne s n).2 = footprint n := by
  obtain ⟨cls, st⟩ := n
  cases cls <;> simp [honorOne, footprint] <;> split_ifs <;> simp [footprint]

theorem honorOne_frame (s : GLState) (n : StNode) (loc : Loc) (h : loc ∉ footprint n) :
    agreeLoc loc (honorOne s n).1 s := by
  obtain ⟨cls, st⟩ := n
  cases cls <;> cases loc <;>
    simp [footprint] at h <;>
    simp [honorOne, agreeLoc] <;>
    split_ifs <;>
    simp_all [setCap]

theorem restoreOne_frame (t : GLState) (n : StNode) (loc : Loc) (h : loc ∉ footprint n) :
    agreeLoc loc (restoreOne t n) t := by
  obtain ⟨cls, st⟩ := n
  cases cls <;> cases loc <;>
    simp [footprint] at h <;>
    simp [restoreOne, agreeLoc] <;>
    split_ifs <;>
    simp_all [setCap]

theorem restoreOne_local (t t' : GLState) (n : StNode) (loc : Loc)
    (h : agreeLoc loc t t') : agreeLoc loc (restoreOne t n) (restoreOne t' n) := by
  obtain ⟨cls, st⟩ := n
  cases cls <;> cases loc <;>
    simp_all [restoreOne, agreeLoc] <;>
    split_ifs <;>
    simp_all [setCap]

theorem honor_frame (l : List StNode) (s : GLState) (loc : Loc) (h : loc ∉ fps l) :
    agreeLoc loc (ngli_honor_glstates s l).1 s := by
  induction l generalizing s with
  | nil => exact agreeLoc_refl _ _
  | cons n rest ih =>
    rw [fps, List.map_cons, List.flatten_cons] at h
    rw [List.mem_append] at h
    push_neg at h
    obtain ⟨h1, h2⟩ := h
    exact agreeLoc_trans (ih (honorOne s n).1 h2) (honorOne_frame s n loc h1)

theorem restore_frame (l : List StNode) (t : GLState) (loc : Loc) (h : loc ∉ fps l) :
    agreeLoc loc (ngli_restore_glstates t l) t := by
  induction l generalizing t with
  | nil => exact agreeLoc_refl _ _
  | cons n rest ih =>
    rw [fps, List.map_cons, List.flatten_cons] at h
    rw [List.mem_append] at h
    push_neg at h
    obtain ⟨h1, h2⟩ := h
    exact agreeLoc_trans (ih (restoreOne t n) h2) (restoreOne_frame t n loc h1)

theorem restore_local (l : List StNode) (t t' : GLState) (loc : Loc)
    (h : agreeLoc loc t t') :
    agreeLoc loc (ngli_restore_glstates t l) (ngli_restore_glstates t' l) := by
  induction l generalizing t t' with
  | nil => exact h
  | cons n rest ih => exact ih _ _ (restoreOne_local t t' n loc h)

theorem honor_footprints (l : List StNode) (s : GLState) :
    ((ngli_honor_glstates s l).2).map footprint = l.map footprint := by
  induction l generalizing s with
  | nil => rfl
  | cons n rest ih =>
    simp [ngli_honor_glstates, honorOne_footprint, ih]

theorem fps_honor (l : List StNode) (s : GLState) :
    fps (ngli_honor_glstates s l).2 = fps l := by
  simp [fps, honor_footprints]

theorem restoreOne_honorOne (s t : GLState) (n : StNode)
    (hag : ∀ loc ∈ footprint n, agreeLoc loc t (honorOne s n).1) :
    ∀ loc ∈ footprint n, okN s n loc → agreeLoc loc (restoreOne t (honorOne s n).2) s := by
  obtain ⟨cls, st⟩ := n
  intro loc hloc hok
  cases cls with
  | glBlendState =>
    simp [footprint] at hloc
    by_cases h0 : st.enabled.1 <;> by_cases h1 : s.caps st.capability <;>
      rcases hloc with rfl | rfl <;>
      simp_all [honorOne, restoreOne, agreeLoc, okN, setCap] <;>
      first
        | rfl
        | (exact (hag .blendRegs (by simp [footprint])).trans
            (by simp [honorOne, h0, agreeLoc]))
  | glColorState =>
    simp [footprint] at hloc
    subst hloc
    simp [honorOne, restoreOne, agreeLoc]
  | glPolygonModeState =>
    simp [footprint] at hloc
    subst hloc
    simp [honorOne, restoreOne, agreeLoc]
  | glStencilState =>
    simp [footprint] at hloc
    by_cases h0 : st.enabled.1 <;> by_cases h1 : s.caps st.capability <;>
      rcases hloc with rfl | rfl <;>
      simp_all [honorOne, restoreOne, agreeLoc, okN, setCap] <;>
      first
        | rfl
        | (exact (hag .stencilRegs (by simp [footprint])).trans
            (by simp [honorOne, h0, agreeLoc]))
  | generic =>
    simp [footprint] at hloc
    subst hloc
    by_cases h0 : st.enabled.1 = s.caps st.capability
    · have := hag (.cap st.capability) (by simp [footprint])
      simp_all [honorOne, restoreOne, agreeLoc, setCap, h0]
    · simp_all [honorOne, restoreOne, agreeLoc, setCap, h0]

theorem trip_agree (l : List StNode) (s : GLState) (hd : FpDisjoint l)
    (loc : Loc) (hok : okL s l loc) :
    agreeLoc loc
      (ngli_restore_glstates (ngli_honor_glstates s l).1 (ngli_honor_glstates s l).2) s := by
  induction l generalizing s with
  | nil => exact agreeLoc_refl _ _
  | cons n rest ih =>
    rcases hd with _ | ⟨hdn, hdrest⟩
    have hexp :
        ngli_honor_glstates s (n :: rest) =
          ((ngli_honor_glstates (honorOne s n).1 rest).1,
           (honorOne s n).2 :: (ngli_honor_glstates (honorOne s n).1 rest).2) := rfl
    rw [hexp]
    rw [show ngli_restore_glstates (ngli_honor_glstates (honorOne s n).1 rest).1
          ((honorOne s n).2 :: (ngli_honor_glstates (honorOne s n).1 rest).2) =
        ngli_restore_glstates
          (restoreOne (ngli_honor_glstates (honorOne s n).1 rest).1 (honorOne s n).2)
          (ngli_honor_glstates (honorOne s n).1 rest).2 from rfl]
    by_cases hin : loc ∈ footprint n
    · -- the head override owns this location
      have hnotrest : loc ∉ fps rest := by
        intro hmem
        rw [fps, List.mem_flatten] at hmem
        obtain ⟨fp, hfp, hlocfp⟩ := hmem
        rw [List.mem_map] at hfp
        obtain ⟨m, hm, rfl⟩ := hfp
        exact hdn m hm loc hin hlocfp
      have hnotrest1 : loc ∉ fps (ngli_honor_glstates (honorOne s n).1 rest).2 := by
        rw [fps_honor]; exact hnotrest
      refine agreeLoc_trans (restore_frame _ _ _ hnotrest1) ?_
      apply restoreOne_honorOne s _ ⟨n.1, n.2⟩
      · intro loc2 hloc2
        have : loc2 ∉ fps rest := by
          intro hmem
          rw [fps, List.mem_flatten] at hmem
          obtain ⟨fp, hfp, hlocfp⟩ := hmem
          rw [List.mem_map] at hfp
          obtain ⟨m, hm, rfl⟩ := hfp
          exact hdn m hm loc2 hloc2 hlocfp
        exact honor_frame rest _ loc2 this
      · exact hin
      · exact hok n (by simp)
    · -- the head override does not own this location
      have h1 : agreeLoc loc (restoreOne (ngli_honor_glstates (honorOne s n).1 rest).1
          (honorOne s n).2) (ngli_honor_glstates (honorOne s n).1 rest).1 := by
        refine restoreOne_frame _ _ _ ?_
        rw [honorOne_footprint]
        exact hin
      have h2 := restore_local (ngli_honor_glstates (honorOne s n).1 rest).2 _ _ loc h1
      refine agreeLoc_trans h2 ?_
      have hok2 : okL (honorOne s n).1 rest loc := by
        intro m hm
        have hmok := hok m (by simp [hm])
        obtain ⟨mcls, mst⟩ := m
        cases mcls <;> simp [okN] at hmok ⊢ <;>
          [skip; skip] <;>
          · have hcap : (Loc.cap mst.capability) ∉ footprint n := by
              intro hc
              exact hdn ⟨_, mst⟩ hm _ hc (by simp [footprint])
            have := honorOne_frame s n (.cap mst.capability) hcap
            rw [agreeLoc] at this
            rw [this]
            exact hmok
      have h3 := ih (honorOne s n).1 hdrest hok2
      exact agreeLoc_trans h3 (honorOne_frame s n loc hin)

theorem okN_of_enabledMatch (s : GLState) (n : StNode) (h : enabledMatch s n) (loc : Loc) :
    okN s n loc := by
  obtain ⟨cls, st⟩ := n
  cases cls <;> cases loc <;> simp_all [enabledMatch, okN]

theorem okN_cap (s : GLState) (n : StNode) (c : Nat) : okN s n (.cap c) := by
  obtain ⟨cls, st⟩ := n
  cases cls <;> simp [okN]

theorem okN_colorM (s : GLState) (n : StNode) : okN s n .colorM := by
  obtain ⟨cls, st⟩ := n
  cases cls <;> simp [okN]

theorem okN_polyM (s : GLState) (n : StNode) : okN s n .polyM := by
  obtain ⟨cls, st⟩ := n
  cases cls <;> simp [okN]

/-- C1 (amended): for a node whose ordered glstates overrides reference
pairwise-distinct driver state and whose class draw callback restores
any tracked state it changes, ngli_node_draw (honor, draw, restore)
leaves every capability enable flag (blend and stencil enables
included), the color write mask and the polygon mode equal to their
pre-call values; and the whole tracked state (blend function/equation
and stencil mask/func/op registers included) round-trips provided each
blend/stencil override's configured enable flag equals the driver's
pre-call enable state for its capability.  (Without that proviso the
auxiliary blend/stencil registers may be left changed, as shown by
C1_counterexample.) -/
theorem C1_pipeline_state_scoping (s : GLState) (l : List StNode) (draw : GLState → GLState)
    (hdraw : ∀ x, draw x = x) (hd : FpDisjoint l) :
    (∀ c, (ngli_node_draw_gl true draw s l).caps c = s.caps c) ∧
    (ngli_node_draw_gl true draw s l).color_mask = s.color_mask ∧
    (ngli_node_draw_gl true draw s l).polygon_mode = s.polygon_mode ∧
    ((∀ n ∈ l, enabledMatch s n) → ngli_node_draw_gl true draw s l = s) := by
  have hdg : ngli_node_draw_gl true draw s l =
      ngli_restore_glstates (ngli_honor_glstates s l).1 (ngli_honor_glstates s l).2 := by
    simp [ngli_node_draw_gl, hdraw]
  rw [hdg]
  refine ⟨?_, ?_, ?_, ?_⟩
  · intro c
    exact trip_agree l s hd (.cap c) (fun n _ => okN_cap s n c)
  · exact trip_agree l s hd .colorM (fun n _ => okN_colorM s n)
  · exact trip_agree l s hd .polyM (fun n _ => okN_polyM s n)
  · intro hmatch
    have hall : ∀ loc, agreeLoc loc
        (ngli_restore_glstates (ngli_honor_glstates s l).1 (ngli_honor_glstates s l).2) s :=
      fun loc => trip_agree l s hd loc (fun n hn => okN_of_enabledMatch s n (hmatch n hn) loc)
    have hcaps :
        (ngli_restore_glstates (ngli_honor_glstates s l).1
          (ngli_honor_glstates s l).2).caps = s.caps :=
      funext fun c => hall (.cap c)
    exact GLState.ext hcaps (hall .blendRegs) (hall .colorM) (hall .polyM)
      (hall .stencilRegs)

/-- Witness for C1_pipeline_state_scoping: a generic capability override
that flips capability 2 on; after the draw the full driver state is
restored. -/
theorem C1_witness :
    FpDisjoint [glGenericOnNode] ∧
      (ngli_node_draw_gl true (fun x => x) glMixedState [glGenericOnNode]).caps 2 =
        glMixedState.caps 2 ∧
      ngli_node_draw_gl true (fun x => x) glMixedState [glGenericOnNode] = glMixedState :=
  ⟨by simp [FpDisjoint],
   (C1_pipeline_state_scoping glMixedState [glGenericOnNode] (fun x => x)
     (fun _ => rfl) (by simp [FpDisjoint])).1 2,
   (C1_pipeline_state_scoping glMixedState [glGenericOnNode] (fun x => x)
     (fun _ => rfl) (by simp [FpDisjoint])).2.2.2
     (by
       intro n hn
       rw [List.mem_singleton] at hn
       subst hn
       exact trivial)⟩

/-! ### Engine theorems (claims C2 - C9) -/

theorem length_setN (σ : Store) (id : Nat) (n : Node) :
    (setN σ id n).length = σ.length := List.length_set σ id n

theorem getN_setN_eq (σ : Store) (id : Nat) (n : Node) (h : id < σ.length) :
    getN (setN σ id n) id = n := by
  rw [getN, setN, List.getD_eq_getElem?_getD, List.getElem?_set_self h]
  rfl

theorem getN_setN_ne (σ : Store) (id j : Nat) (n : Node) (h : id ≠ j) :
    getN (setN σ id n) j = getN σ j := by
  rw [getN, setN, List.getD_eq_getElem?_getD, List.getElem?_set_ne h,
    ← List.getD_eq_getElem?_getD]
  rfl

theorem setN_getN_self (σ : Store) (id : Nat) (h : id < σ.length) :
    setN σ id (getN σ id) = σ := by
  show List.set σ id (getN σ id) = σ
  apply List.ext_getElem
  · rw [List.length_set]
  · intro i h1 h2
    by_cases hij : id = i
    · subst hij
      rw [List.getElem_set_self]
      rw [getN, List.getD_eq_getElem?_getD, List.getElem?_eq_getElem h]
      rfl
    · rw [List.getElem_set_ne hij]

theorem stateErase_set_state (m : Node) (st : NState) :
    stateErase { m with state := st } = stateErase m := rfl

theorem getN_out_of_range (σ : Store) (id : Nat) (n : Node) (h : ¬ id < σ.length) :
    setN σ id n = σ := by
  show List.set σ id n = σ
  exact List.set_eq_of_length_le (Nat.le_of_not_lt h)

/-- Bundle of invariants of ngli_node_init / init_glstates: the store
length is preserved, every node changes at most in its state field,
non-UNINITIALIZED states are preserved, and the trace holds only init
events. -/
theorem init_meta (fuel : Nat) :
    (∀ σ id σ' r tr, ngli_node_init fuel σ id = some (σ', r, tr) →
       σ'.length = σ.length ∧
       (∀ j, stateErase (getN σ' j) = stateErase (getN σ j)) ∧
       (∀ j, (getN σ j).state ≠ .uninitialized → (getN σ' j).state = (getN σ j).state) ∧
       (∀ e ∈ tr, ∃ j, e = Ev.evInit j)) ∧
    (∀ σ ids σ' r tr, init_glstates fuel σ ids = some (σ', r, tr) →
       σ'.length = σ.length ∧
       (∀ j, stateErase (getN σ' j) = stateErase (getN σ j)) ∧
       (∀ j, (getN σ j).state ≠ .uninitialized → (getN σ' j).state = (getN σ j).state) ∧
       (∀ e ∈ tr, ∃ j, e = Ev.evInit j)) := by
  induction fuel with
  | zero =>
    constructor <;> intro σ ids σ' r tr h <;> simp [ngli_node_init, init_glstates] at h
  | succ f ih =>
    obtain ⟨ih1, ih2⟩ := ih
    constructor
    · intro σ id σ' r tr h
      simp only [ngli_node_init] at h
      by_cases h1 : (getN σ id).state = .initialized
      · rw [if_pos h1] at h
        simp only [Option.some.injEq, Prod.mk.injEq] at h
        obtain ⟨rfl, rfl, rfl⟩ := h
        exact ⟨rfl, fun j => rfl, fun j _ => rfl, by simp⟩
      · rw [if_neg h1] at h
        by_cases h2 : (getN σ id).state ≠ .uninitialized
        · rw [if_pos h2] at h
          simp only [Option.some.injEq, Prod.mk.injEq] at h
          obtain ⟨rfl, rfl, rfl⟩ := h
          exact ⟨rfl, fun j => rfl, fun j _ => rfl, by simp⟩
        · rw [if_neg h2] at h
          push_neg at h2
          have hcbtr : ∀ (b : Bool) (e : Ev),
              e ∈ (if b = true then ((getN σ id).cls.init_ret, [Ev.evInit id])
                   else ((0:Int), ([]:List Ev))).2 → ∃ j, e = Ev.evInit j := by
            intro b e he
            split at he <;> simp_all
          by_cases hcb : (if (getN σ id).cls.has_init = true
              then ((getN σ id).cls.init_ret, [Ev.evInit id])
              else ((0:Int), ([]:List Ev))).1 < 0
          · rw [if_pos hcb] at h
            simp only [Option.some.injEq, Prod.mk.injEq] at h
            obtain ⟨rfl, rfl, rfl⟩ := h
            exact ⟨rfl, fun j => rfl, fun j _ => rfl, hcbtr _⟩
          · rw [if_neg hcb] at h
            cases hgl : init_glstates f σ (getN σ id).glstates with
            | none => rw [hgl] at h; exact absurd h (by simp)
            | some res =>
              obtain ⟨σ1, ret, tr1⟩ := res
              rw [hgl] at h
              dsimp only at h
              obtain ⟨hlen, hshell, hstate, htr⟩ := ih2 σ _ _ _ _ hgl
              by_cases hret : ret < 0
              · rw [if_pos hret] at h
                simp only [Option.some.injEq, Prod.mk.injEq] at h
                obtain ⟨rfl, rfl, rfl⟩ := h
                refine ⟨hlen, hshell, hstate, ?_⟩
                intro e he
                rw [List.mem_append] at he
                rcases he with he | he
                · exact hcbtr _ e he
                · exact htr e he
              · rw [if_neg hret] at h
                simp only [Option.some.injEq, Prod.mk.injEq] at h
                obtain ⟨rfl, rfl, rfl⟩ := h
                refine ⟨?_, ?_, ?_, ?_⟩
                · rw [length_setN]; exact hlen
                · intro j
                  by_cases hj : id = j
                  · subst hj
                    by_cases hl : id < σ1.length
                    · rw [getN_setN_eq _ _ _ hl, stateErase_set_state]
                      exact hshell id
                    · rw [getN_out_of_range _ _ _ hl]
                      exact hshell id
                  · rw [getN_setN_ne _ _ _ _ hj]
                    exact hshell j
                · intro j hju
                  by_cases hj : id = j
                  · subst hj
                    exact absurd h2 hju
                  · rw [getN_setN_ne _ _ _ _ hj]
                    exact hstate j hju
                · intro e he
                  rw [List.mem_append] at he
                  rcases he with he | he
                  · exact hcbtr _ e he
                  · exact htr e he
    · intro σ ids σ' r tr h
      match ids with
      | [] =>
        simp only [init_glstates, Option.some.injEq, Prod.mk.injEq] at h
        obtain ⟨rfl, rfl, rfl⟩ := h
        exact ⟨rfl, fun j => rfl, fun j _ => rfl, by simp⟩
      | c :: rest =>
        simp only [init_glstates] at h
        cases hc : ngli_node_init f σ c with
        | none => rw [hc] at h; exact absurd h (by simp)
        | some res1 =>
          obtain ⟨σ1, r1, tr1⟩ := res1
          rw [hc] at h
          dsimp only at h
          obtain ⟨hlen1, hshell1, hstate1, htr1⟩ := ih1 σ c _ _ _ hc
          by_cases hr1 : r1 < 0
          · rw [if_pos hr1] at h
            simp only [Option.some.injEq, Prod.mk.injEq] at h
            obtain ⟨rfl, rfl, rfl⟩ := h
            exact ⟨hlen1, hshell1, hstate1, htr1⟩
          · rw [if_neg hr1] at h
            cases hrest : init_glstates f σ1 rest with
            | none => rw [hrest] at h; exact absurd h (by simp)
            | some res2 =>
              obtain ⟨σ2, r2, tr2⟩ := res2
              rw [hrest] at h
              dsimp only at h
              simp only [Option.some.injEq, Prod.mk.injEq] at h
              obtain ⟨rfl, rfl, rfl⟩ := h
              obtain ⟨hlen2, hshell2, hstate2, htr2⟩ := ih2 σ1 rest _ _ _ hrest
              refine ⟨hlen2.trans hlen1, fun j => (hshell2 j).trans (hshell1 j), ?_, ?_⟩
              · intro j hju
                have ha := hstate1 j hju
                have hb := hstate2 j (by rw [ha]; exact hju)
                rw [hb, ha]
              · intro e he
                rw [List.mem_append] at he
                rcases he with he | he
                · exact htr1 e he
                · exact htr2 e he

theorem init_noop (fuel : Nat) (σ : Store) (id : Nat)
    (h : (getN σ id).state ≠ .uninitialized) :
    ngli_node_init (fuel + 1) σ id = some (σ, 0, []) := by
  simp only [ngli_node_init]
  by_cases h1 : (getN σ id).state = .initialized
  · rw [if_pos h1]
  · rw [if_neg h1, if_pos h]

theorem init_post (fuel : Nat) (σ : Store) (id : Nat) (σ' : Store) (r : Int) (tr : List Ev)
    (h : ngli_node_init fuel σ id = some (σ', r, tr)) (hr : ¬ r < 0) (hl : id < σ.length) :
    (getN σ' id).state ≠ .uninitialized := by
  match fuel with
  | 0 => simp [ngli_node_init] at h
  | f + 1 =>
    simp only [ngli_node_init] at h
    by_cases h1 : (getN σ id).state = .initialized
    · rw [if_pos h1] at h
      simp only [Option.some.injEq, Prod.mk.injEq] at h
      obtain ⟨rfl, rfl, rfl⟩ := h
      rw [h1]
      simp
    · rw [if_neg h1] at h
      by_cases h2 : (getN σ id).state ≠ .uninitialized
      · rw [if_pos h2] at h
        simp only [Option.some.injEq, Prod.mk.injEq] at h
        obtain ⟨rfl, rfl, rfl⟩ := h
        exact h2
      · rw [if_neg h2] at h
        by_cases hcb : (if (getN σ id).cls.has_init = true
            then ((getN σ id).cls.init_ret, [Ev.evInit id])
            else ((0:Int), ([]:List Ev))).1 < 0
        · rw [if_pos hcb] at h
          simp only [Option.some.injEq, Prod.mk.injEq] at h
          obtain ⟨rfl, rfl, rfl⟩ := h
          exact absurd hcb hr
        · rw [if_neg hcb] at h
          cases hgl : init_glstates f σ (getN σ id).glstates with
          | none => rw [hgl] at h; exact absurd h (by simp)
          | some res =>
            obtain ⟨σ1, ret, tr1⟩ := res
            rw [hgl] at h
            dsimp only at h
            by_cases hret : ret < 0
            · rw [if_pos hret] at h
              simp only [Option.some.injEq, Prod.mk.injEq] at h
              obtain ⟨rfl, rfl, rfl⟩ := h
              exact absurd hret hr
            · rw [if_neg hret] at h
              simp only [Option.some.injEq, Prod.mk.injEq] at h
              obtain ⟨rfl, rfl, rfl⟩ := h
              have hlen : σ1.length = σ.length := ((init_meta f).2 σ _ _ _ _ hgl).1
              rw [getN_setN_eq _ _ _ (by omega)]
              simp

theorem prefetch_length (fuel : Nat) (σ : Store) (id : Nat) (σ' : Store) (r : Int)
    (tr : List Ev) (h : node_prefetch fuel σ id = some (σ', r, tr)) :
    σ'.length = σ.length := by
  simp only [node_prefetch] at h
  by_cases h1 : (getN σ id).state = .ready
  · rw [if_pos h1] at h
    simp only [Option.some.injEq, Prod.mk.injEq] at h
    obtain ⟨rfl, rfl, rfl⟩ := h
    rfl
  · rw [if_neg h1] at h
    cases hi : ngli_node_init fuel σ id with
    | none => rw [hi] at h; exact absurd h (by simp)
    | some res =>
      obtain ⟨σ1, r1, tr1⟩ := res
      rw [hi] at h
      dsimp only at h
      have hlen1 : σ1.length = σ.length := ((init_meta fuel).1 σ id _ _ _ hi).1
      by_cases hr1 : r1 < 0
      · rw [if_pos hr1] at h
        simp only [Option.some.injEq, Prod.mk.injEq] at h
        obtain ⟨rfl, rfl, rfl⟩ := h
        exact hlen1
      · rw [if_neg hr1] at h
        by_cases hcb : (if (getN σ1 id).cls.has_prefetch = true
            then ((getN σ1 id).cls.prefetch_ret, [Ev.evPrefetch id])
            else ((0:Int), ([]:List Ev))).1 < 0
        · rw [if_pos hcb] at h
          simp only [Option.some.injEq, Prod.mk.injEq] at h
          obtain ⟨rfl, rfl, rfl⟩ := h
          exact hlen1
        · rw [if_neg hcb] at h
          simp only [Option.some.injEq, Prod.mk.injEq] at h
          obtain ⟨rfl, rfl, rfl⟩ := h
          rw [length_setN]
          exact hlen1

theorem prefetch_post (fuel : Nat) (σ : Store) (id : Nat) (σ' : Store) (r : Int)
    (tr : List Ev) (h : node_prefetch fuel σ id = some (σ', r, tr)) (hr : ¬ r < 0)
    (hl : id < σ.length) : (getN σ' id).state = .ready := by
  simp only [node_prefetch] at h
  by_cases h1 : (getN σ id).state = .ready
  · rw [if_pos h1] at h
    simp only [Option.some.injEq, Prod.mk.injEq] at h
    obtain ⟨rfl, rfl, rfl⟩ := h
    exact h1
  · rw [if_neg h1] at h
    cases hi : ngli_node_init fuel σ id with
    | none => rw [hi] at h; exact absurd h (by simp)
    | some res =>
      obtain ⟨σ1, r1, tr1⟩ := res
      rw [hi] at h
      dsimp only at h
      have hlen1 : σ1.length = σ.length := ((init_meta fuel).1 σ id _ _ _ hi).1
      by_cases hr1 : r1 < 0
      · rw [if_pos hr1] at h
        simp only [Option.some.injEq, Prod.mk.injEq] at h
        obtain ⟨rfl, rfl, rfl⟩ := h
        exact absurd hr1 hr
      · rw [if_neg hr1] at h
        by_cases hcb : (if (getN σ1 id).cls.has_prefetch = true
            then ((getN σ1 id).cls.prefetch_ret, [Ev.evPrefetch id])
            else ((0:Int), ([]:List Ev))).1 < 0
        · rw [if_pos hcb] at h
          simp only [Option.some.injEq, Prod.mk.injEq] at h
          obtain ⟨rfl, rfl, rfl⟩ := h
          exact absurd hcb hr
        · rw [if_neg hcb] at h
          simp only [Option.some.injEq, Prod.mk.injEq] at h
          obtain ⟨rfl, rfl, rfl⟩ := h
          rw [getN_setN_eq _ _ _ (by omega)]

theorem init_cls (fuel : Nat) (σ : Store) (id : Nat) (σ' : Store) (r : Int) (tr : List Ev)
    (h : ngli_node_init fuel σ id = some (σ', r, tr)) (j : Nat) :
    (getN σ' j).cls = (getN σ j).cls := by
  have hc := congrArg Node.cls (((init_meta fuel).1 σ id _ _ _ h).2.1 j)
  simpa [stateErase] using hc

theorem init_lut (fuel : Nat) (σ : Store) (id : Nat) (σ' : Store) (r : Int) (tr : List Ev)
    (h : ngli_node_init fuel σ id = some (σ', r, tr)) (j : Nat) :
    (getN σ' j).last_update_time = (getN σ j).last_update_time := by
  have hc := congrArg Node.last_update_time (((init_meta fuel).1 σ id _ _ _ h).2.1 j)
  simpa [stateErase] using hc

/-- Post-state of a successful ngli_node_update call. -/
theorem update_post (fuel : Nat) (σ : Store) (id : Nat) (t : Int) (σ' : Store) (tr : List Ev)
    (h : ngli_node_update fuel σ id t = some (σ', 0, tr)) (hl : id < σ.length) :
    σ'.length = σ.length ∧
    (getN σ' id).state ≠ .uninitialized ∧
    ((getN σ' id).cls.has_update = true → (getN σ' id).last_update_time = t) := by
  match fuel with
  | 0 => simp [ngli_node_update] at h
  | f + 1 =>
    simp only [ngli_node_update] at h
    cases hi : ngli_node_init f σ id with
    | none => rw [hi] at h; exact absurd h (by simp)
    | some res =>
      obtain ⟨σa, ra, tra⟩ := res
      rw [hi] at h
      dsimp only at h
      have hlena : σa.length = σ.length := ((init_meta f).1 σ id _ _ _ hi).1
      by_cases hra : ra < 0
      · rw [if_pos hra] at h
        simp only [Option.some.injEq, Prod.mk.injEq] at h
        obtain ⟨rfl, hr0, rfl⟩ := h
        omega
      · rw [if_neg hra] at h
        have hsta : (getN σa id).state ≠ .uninitialized := init_post f σ id _ _ _ hi hra hl
        by_cases hu : (getN σa id).cls.has_update = true
        · rw [if_pos hu] at h
          by_cases hlut : (getN σa id).last_update_time ≠ t
          · rw [if_pos hlut] at h
            cases hp : node_prefetch f σa id with
            | none => rw [hp] at h; exact absurd h (by simp)
            | some res2 =>
              obtain ⟨σ2, r2, tr2⟩ := res2
              rw [hp] at h
              dsimp only at h
              have hlen2 : σ2.length = σa.length := prefetch_length f σa id _ _ _ hp
              by_cases hr2 : r2 < 0
              · rw [if_pos hr2] at h
                simp only [Option.some.injEq, Prod.mk.injEq] at h
                obtain ⟨rfl, hr0, rfl⟩ := h
                omega
              · rw [if_neg hr2] at h
                have hrdy : (getN σ2 id).state = .ready :=
                  prefetch_post f σa id _ _ _ hp hr2 (by omega)
                by_cases hur : (getN σa id).cls.update_ret < 0
                · rw [if_pos hur] at h
                  simp only [Option.some.injEq, Prod.mk.injEq] at h
                  obtain ⟨rfl, hr0, rfl⟩ := h
                  omega
                · rw [if_neg hur] at h
                  simp only [Option.some.injEq, Prod.mk.injEq] at h
                  obtain ⟨rfl, hr0, rfl⟩ := h
                  rw [getN_setN_eq _ _ _ (by omega)]
                  refine ⟨by rw [length_setN]; omega, ?_, fun _ => rfl⟩
                  simp [hrdy]
          · rw [if_neg hlut] at h
            push_neg at hlut
            simp only [Option.some.injEq, Prod.mk.injEq] at h
            obtain ⟨rfl, hr0, rfl⟩ := h
            rw [getN_setN_eq _ _ _ (by omega)]
            exact ⟨by rw [length_setN]; omega, hsta, fun _ => rfl⟩
        · rw [if_neg hu] at h
          simp only [Option.some.injEq, Prod.mk.injEq] at h
          obtain ⟨rfl, hr0, rfl⟩ := h
          refine ⟨hlena, hsta, ?_⟩
          intro hu2
          exact absurd hu2 hu

/-- C3: update is memoized per timestamp.  After a successful
ngli_node_update(node, t), an immediately repeated call for the same t
returns 0 with the store unchanged and an empty callback trace: in
particular the class update callback is not re-invoked (so a node shared
by two parents in a diamond DAG runs its update at most once per t). -/
theorem C3_update_memoized (fuel g : Nat) (σ : Store) (id : Nat) (t : Int) (σ1 : Store)
    (tr : List Ev) (hl : id < σ.length)
    (h : ngli_node_update fuel σ id t = some (σ1, 0, tr)) :
    ngli_node_update (g + 2) σ1 id t = some (σ1, 0, []) := by
  obtain ⟨hlen, hstate, hlut⟩ := update_post fuel σ id t σ1 tr h hl
  have hinit : ngli_node_init (g + 1) σ1 id = some (σ1, 0, []) := init_noop g σ1 id hstate
  simp only [ngli_node_update, hinit]
  rw [if_neg (by omega : ¬ (0:Int) < 0)]
  by_cases hu : (getN σ1 id).cls.has_update = true
  · rw [if_pos hu]
    rw [if_neg (by push_neg; exact hlut hu)]
    have heq : { getN σ1 id with last_update_time := t } = getN σ1 id := by
      rw [← hlut hu]
    rw [heq, setN_getN_self σ1 id (by omega)]
  · rw [if_neg hu]

theorem init_ret_nonpos (fuel : Nat) :
    (∀ σ id σ' r tr, ngli_node_init fuel σ id = some (σ', r, tr) → r ≤ 0) ∧
    (∀ σ ids σ' r tr, init_glstates fuel σ ids = some (σ', r, tr) → r ≤ 0) := by
  induction fuel with
  | zero =>
    constructor <;> intro σ ids σ' r tr h <;> simp [ngli_node_init, init_glstates] at h
  | succ f ih =>
    obtain ⟨ih1, ih2⟩ := ih
    constructor
    · intro σ id σ' r tr h
      simp only [ngli_node_init] at h
      by_cases h1 : (getN σ id).state = .initialized
      · rw [if_pos h1] at h
        simp only [Option.some.injEq, Prod.mk.injEq] at h
        omega
      · rw [if_neg h1] at h
        by_cases h2 : (getN σ id).state ≠ .uninitialized
        · rw [if_pos h2] at h
          simp only [Option.some.injEq, Prod.mk.injEq] at h
          omega
        · rw [if_neg h2] at h
          by_cases hcb : (if (getN σ id).cls.has_init = true
              then ((getN σ id).cls.init_ret, [Ev.evInit id])
              else ((0:Int), ([]:List Ev))).1 < 0
          · rw [if_pos hcb] at h
            simp only [Option.some.injEq, Prod.mk.injEq] at h
            omega
          · rw [if_neg hcb] at h
            cases hgl : init_glstates f σ (getN σ id).glstates with
            | none => rw [hgl] at h; exact absurd h (by simp)
            | some res =>
              obtain ⟨σ1, ret, tr1⟩ := res
              rw [hgl] at h
              dsimp only at h
              by_cases hret : ret < 0
              · rw [if_pos hret] at h
                simp only [Option.some.injEq, Prod.mk.injEq] at h
                omega
              · rw [if_neg hret] at h
                simp only [Option.some.injEq, Prod.mk.injEq] at h
                omega
    · intro σ ids σ' r tr h
      match ids with
      | [] =>
        simp only [init_glstates, Option.some.injEq, Prod.mk.injEq] at h
        omega
      | c :: rest =>
        simp only [init_glstates] at h
        cases hc : ngli_node_init f σ c with
        | none => rw [hc] at h; exact absurd h (by simp)
        | some res1 =>
          obtain ⟨σ1, r1, tr1⟩ := res1
          rw [hc] at h
          dsimp only at h
          by_cases hr1 : r1 < 0
          · rw [if_pos hr1] at h
            simp only [Option.some.injEq, Prod.mk.injEq] at h
            omega
          · rw [if_neg hr1] at h
            cases hrest : init_glstates f σ1 rest with
            | none => rw [hrest] at h; exact absurd h (by simp)
            | some res2 =>
              obtain ⟨σ2, r2, tr2⟩ := res2
              rw [hrest] at h
              dsimp only at h
              simp only [Option.some.injEq, Prod.mk.injEq] at h
              have := ih2 σ1 rest _ _ _ hrest
              omega

/-- C6 (amended): for a class whose update callback is present, a first
successful ngli_node_update(node, t) (last_update_time != t) leaves the
node READY (lazy prefetch fallback), invokes the class update callback,
and stamps last_update_time = t.  For a class without an update
callback, ngli_node_update only performs ngli_node_init: no prefetch, no
stamping (see C6_counterexample). -/
theorem C6_update_first_call :
    (∀ fuel σ id t σ' tr, id < List.length σ →
       (getN σ id).cls.has_update = true →
       (getN σ id).last_update_time ≠ t →
       ngli_node_update fuel σ id t = some (σ', 0, tr) →
       (getN σ' id).state = .ready ∧ (getN σ' id).last_update_time = t ∧
         Ev.evUpdate id ∈ tr) ∧
    (∀ fuel σ id t, (getN σ id).cls.has_update = false →
       ngli_node_update (fuel + 1) σ id t = ngli_node_init fuel σ id) := by
  constructor
  · intro fuel σ id t σ' tr hl hu hlut h
    match fuel with
    | 0 => simp [ngli_node_update] at h
    | f + 1 =>
      simp only [ngli_node_update] at h
      cases hi : ngli_node_init f σ id with
      | none => rw [hi] at h; exact absurd h (by simp)
      | some res =>
        obtain ⟨σa, ra, tra⟩ := res
        rw [hi] at h
        dsimp only at h
        have hlena : σa.length = σ.length := ((init_meta f).1 σ id _ _ _ hi).1
        have hclsa : (getN σa id).cls = (getN σ id).cls := init_cls f σ id _ _ _ hi id
        have hluta : (getN σa id).last_update_time = (getN σ id).last_update_time :=
          init_lut f σ id _ _ _ hi id
        by_cases hra : ra < 0
        · rw [if_pos hra] at h
          simp only [Option.some.injEq, Prod.mk.injEq] at h
          obtain ⟨rfl, hr0, rfl⟩ := h
          omega
        · rw [if_neg hra] at h
          rw [if_pos (by rw [hclsa]; exact hu)] at h
          rw [if_pos (by rw [hluta]; exact hlut)] at h
          cases hp : node_prefetch f σa id with
          | none => rw [hp] at h; exact absurd h (by simp)
          | some res2 =>
            obtain ⟨σ2, r2, tr2⟩ := res2
            rw [hp] at h
            dsimp only at h
            have hlen2 : σ2.length = σa.length := prefetch_length f σa id _ _ _ hp
            by_cases hr2 : r2 < 0
            · rw [if_pos hr2] at h
              simp only [Option.some.injEq, Prod.mk.injEq] at h
              obtain ⟨rfl, hr0, rfl⟩ := h
              omega
            · rw [if_neg hr2] at h
              have hrdy : (getN σ2 id).state = .ready :=
                prefetch_post f σa id _ _ _ hp hr2 (by omega)
              by_cases hur : (getN σa id).cls.update_ret < 0
              · rw [if_pos hur] at h
                simp only [Option.some.injEq, Prod.mk.injEq] at h
                obtain ⟨rfl, hr0, rfl⟩ := h
                omega
              · rw [if_neg hur] at h
                simp only [Option.some.injEq, Prod.mk.injEq] at h
                obtain ⟨rfl, hr0, rfl⟩ := h
                rw [getN_setN_eq _ _ _ (by omega)]
                refine ⟨by simp [hrdy], rfl, by simp⟩
  · intro fuel σ id t hu
    simp only [ngli_node_update]
    cases hi : ngli_node_init fuel σ id with
    | none => rfl
    | some res =>
      obtain ⟨σa, ra, tra⟩ := res
      dsimp only
      by_cases hra : ra < 0
      · rw [if_pos hra]
      · rw [if_neg hra]
        have hclsa : (getN σa id).cls = (getN σ id).cls := init_cls fuel σ id _ _ _ hi id
        rw [if_neg (by rw [hclsa, hu]; simp)]
        have hnp : ra ≤ 0 := (init_ret_nonpos fuel).1 σ id _ _ _ hi
        have : ra = 0 := by omega
        rw [this]

theorem visit_leaf (f : Nat) (σ : Store) (c : Nat) (p : Option Nat) (t : Int)
    (hst : (getN σ c).state = .initialized)
    (hv : (getN σ c).cls.has_visit = false)
    (hf : (getN σ c).fields = []) :
    ngli_node_visit (f + 2) σ c p t =
      some (visitSet σ c (match p with | some q => (getN σ q).is_active | none => true) t,
        0, []) := by
  have hinit : ngli_node_init (f + 1) σ c = some (σ, 0, []) :=
    init_noop f σ c (by rw [hst]; simp)
  simp only [ngli_node_visit, hinit]
  rw [if_neg (by omega : ¬ (0:Int) < 0), if_neg (by rw [hv]; simp)]
  have hvf : ∀ X : Store, visit_fields (f + 1) X ((getN σ c).fields) c t = some (X, 0, []) := by
    intro X
    rw [hf]
    rfl
  rw [hvf]
  rfl

/-- C4: default visit bookkeeping and last-writer-wins activity.
First conjunct: on a class without a custom visit callback, after a
successful init, ngli_node_visit sets is_active to the parent activity
(true at the root), stamps visit_time = t, and then walks every
node-typed field passing itself as parent.  Second conjunct: a shared
leaf child visited from parent p1 and then from parent p2 ends with
is_active equal to the activity propagated along the p2 path (and
visit_time = t), not any combination of the two. -/
theorem C4_visit_last_writer_wins :
    (∀ f σ id fromNode t σ0 tr0,
       (getN σ id).cls.has_visit = false →
       ngli_node_init f σ id = some (σ0, 0, tr0) →
       ngli_node_visit (f + 1) σ id fromNode t =
         match visit_fields f
             (visitSet σ0 id
               (match fromNode with | some p => (getN σ0 p).is_active | none => true) t)
             ((getN σ0 id).fields) id t with
         | none => none
         | some (σ2, r2, tr2) => some (σ2, r2, tr0 ++ tr2)) ∧
    (∀ f g σ c p1 p2 t, c < List.length σ →
       (getN σ c).state = .initialized →
       (getN σ c).cls.has_visit = false →
       (getN σ c).fields = [] →
       p1 ≠ c → p2 ≠ c →
       ngli_node_visit (f + 2) σ c (some p1) t =
         some (visitSet σ c ((getN σ p1).is_active) t, 0, []) ∧
       ngli_node_visit (g + 2) (visitSet σ c ((getN σ p1).is_active) t) c (some p2) t =
         some (visitSet (visitSet σ c ((getN σ p1).is_active) t) c
           ((getN σ p2).is_active) t, 0, []) ∧
       (getN (visitSet (visitSet σ c ((getN σ p1).is_active) t) c
           ((getN σ p2).is_active) t) c).is_active = (getN σ p2).is_active ∧
       (getN (visitSet (visitSet σ c ((getN σ p1).is_active) t) c
           ((getN σ p2).is_active) t) c).visit_time = t) := by
  constructor
  · intro f σ id fromNode t σ0 tr0 hv hinit
    have hcls : (getN σ0 id).cls = (getN σ id).cls := init_cls f σ id _ _ _ hinit id
    simp only [ngli_node_visit, hinit]
    rw [if_neg (by omega : ¬ (0:Int) < 0), if_neg (by rw [hcls, hv]; simp)]
    rfl
  · intro f g σ c p1 p2 t hl hst hv hf hp1 hp2
    have h1 : ngli_node_visit (f + 2) σ c (some p1) t =
        some (visitSet σ c ((getN σ p1).is_active) t, 0, []) :=
      visit_leaf f σ c (some p1) t hst hv hf
    have hσ1c : getN (visitSet σ c ((getN σ p1).is_active) t) c =
        { getN σ c with is_active := (getN σ p1).is_active, visit_time := t } := by
      rw [visitSet, getN_setN_eq _ _ _ hl]
    have hσ1p2 : getN (visitSet σ c ((getN σ p1).is_active) t) p2 = getN σ p2 := by
      rw [visitSet, getN_setN_ne _ _ _ _ (fun he => hp2 he.symm)]
    have h2 : ngli_node_visit (g + 2) (visitSet σ c ((getN σ p1).is_active) t) c
        (some p2) t =
        some (visitSet (visitSet σ c ((getN σ p1).is_active) t) c
          ((getN σ p2).is_active) t, 0, []) := by
      have hle := visit_leaf g (visitSet σ c ((getN σ p1).is_active) t) c (some p2) t
        (by rw [hσ1c]; exact hst) (by rw [hσ1c]; exact hv) (by rw [hσ1c]; exact hf)
      dsimp only at hle
      rw [hσ1p2] at hle
      exact hle
    have hl2 : c < List.length (visitSet σ c ((getN σ p1).is_active) t) := by
      rw [visitSet, length_setN]
      exact hl
    refine ⟨h1, h2, ?_, ?_⟩ <;>
      rw [visitSet, getN_setN_eq _ _ _ hl2]

theorem memzero_length (bs : List Nat) (off len : Nat) :
    (memzero bs off len).length = bs.length := by
  induction bs generalizing off len with
  | nil => rfl
  | cons b bs ih =>
    match off with
    | 0 =>
      match len with
      | 0 => rfl
      | len' + 1 => simp [memzero, ih]
    | off' + 1 => simp [memzero, ih]

theorem memzero_getD (bs : List Nat) (off len i : Nat) (d : Nat) (hi : i < bs.length) :
    (memzero bs off len).getD i d = if off ≤ i ∧ i < off + len then 0 else bs.getD i d := by
  induction bs generalizing off len i with
  | nil => simp at hi
  | cons b bs ih =>
    match off with
    | 0 =>
      match len with
      | 0 => simp [memzero]
      | len' + 1 =>
        match i with
        | 0 => simp [memzero]
        | i' + 1 =>
          have hi' : i' < bs.length := by simpa using hi
          show (memzero bs 0 len').getD i' d = _
          rw [ih 0 len' i' hi']
          have : (0 ≤ i' + 1 ∧ i' + 1 < 0 + (len' + 1)) ↔ (0 ≤ i' ∧ i' < 0 + len') := by omega
          by_cases hc : 0 ≤ i' ∧ i' < 0 + len'
          · rw [if_pos hc, if_pos (this.mpr hc)]
          · rw [if_neg hc, if_neg (fun hx => hc (this.mp hx))]
            rfl
    | off' + 1 =>
      match i with
      | 0 => simp [memzero]
      | i' + 1 =>
        have hi' : i' < bs.length := by simpa using hi
        show (memzero bs off' len).getD i' d = _
        rw [ih off' len i' hi']
        have : (off' + 1 ≤ i' + 1 ∧ i' + 1 < off' + 1 + len) ↔ (off' ≤ i' ∧ i' < off' + len) := by
          omega
        by_cases hc : off' ≤ i' ∧ i' < off' + len
        · rw [if_pos hc, if_pos (this.mpr hc)]
        · rw [if_neg hc, if_neg (fun hx => hc (this.mp hx))]
          rfl

theorem reset_loop_length (sz : Nat) (ps : List Param) (cur : Nat) (bs : List Nat) :
    (reset_loop sz ps cur bs).length = bs.length := by
  induction ps generalizing cur bs with
  | nil => exact memzero_length bs cur (sz - cur)
  | cons p rest ih => rw [reset_loop, ih, memzero_length]

theorem reset_loop_frame (sz : Nat) (ps : List Param) (cur : Nat) (bs : List Nat)
    (i : Nat) (d : Nat) (hs : sortedFrom sz cur ps) (hi : i < cur) (hib : i < bs.length) :
    (reset_loop sz ps cur bs).getD i d = bs.getD i d := by
  induction ps generalizing cur bs with
  | nil =>
    rw [reset_loop, memzero_getD bs cur (sz - cur) i d hib, if_neg (by omega)]
  | cons p rest ih =>
    obtain ⟨h1, h2⟩ := hs
    rw [reset_loop, ih _ _ h2 (by omega) (by rw [memzero_length]; exact hib),
      memzero_getD bs cur (p.offset - cur) i d hib, if_neg (by omega)]

theorem reset_loop_zero (sz : Nat) (ps : List Param) (cur : Nat) (bs : List Nat)
    (i : Nat) (d : Nat) (hs : sortedFrom sz cur ps) (hlen : bs.length = sz)
    (hcur : cur ≤ i) (hi : i < sz) (hnc : ¬ covered ps i) :
    (reset_loop sz ps cur bs).getD i d = 0 := by
  induction ps generalizing cur bs with
  | nil =>
    rw [reset_loop, memzero_getD bs cur (sz - cur) i d (by omega), if_pos (by
      constructor
      · exact hcur
      · rw [sortedFrom] at hs
        omega)]
  | cons p rest ih =>
    obtain ⟨h1, h2⟩ := hs
    have hnp : ¬ (p.offset ≤ i ∧ i < p.offset + opt_size p.ptype) := by
      intro hx
      exact hnc ⟨p, by simp, hx⟩
    have hnr : ¬ covered rest i := by
      intro ⟨q, hq, hx⟩
      exact hnc ⟨q, by simp [hq], hx⟩
    rw [reset_loop]
    by_cases hcase : p.offset + opt_size p.ptype ≤ i
    · exact ih _ _ h2 (by rw [memzero_length]; exact hlen) hcase hnr
    · have hip : i < p.offset := by omega
      rw [reset_loop_frame sz rest _ _ i d h2 (by omega)
        (by rw [memzero_length]; omega)]
      rw [memzero_getD bs cur (p.offset - cur) i d (by omega), if_pos (by omega)]

/-- C7: every direct parameter mutation forces a clean-slate reinit.
For an attached node in state INITIALIZED or READY whose key is found,
ngl_node_param_set leaves the node UNINITIALIZED after running the
release step (class release callback only if the node was READY), then
the class uninit callback, then zeroing every private-data byte not
covered by a schema parameter (requires the build-time well-formedness
of the schema: ascending, non-overlapping, in-bounds offsets). -/
theorem C7_param_set_forces_uninit (σ : Store) (id : Nat)
    (setter : List Nat → List Nat) (setRet : Int)
    (hl : id < List.length σ)
    (hctx : (getN σ id).ctx.isSome = true)
    (hst : (getN σ id).state = .initialized ∨ (getN σ id).state = .ready)
    (hsort : sortedFrom (getN σ id).cls.priv_size 0 (getN σ id).cls.params)
    (hplen : (setter (getN σ id).priv).length = (getN σ id).cls.priv_size) :
    (getN (ngl_node_param_set_model σ id true setter setRet).1 id).state = .uninitialized ∧
    (ngl_node_param_set_model σ id true setter setRet).2.1 = setRet ∧
    (∀ i, i < (getN σ id).cls.priv_size → ¬ covered (getN σ id).cls.params i →
       (getN (ngl_node_param_set_model σ id true setter setRet).1 id).priv.getD i 1 = 0) ∧
    (ngl_node_param_set_model σ id true setter setRet).2.2 =
      (if (getN σ id).state = .ready ∧ (getN σ id).cls.has_release = true
       then [Ev.evRelease id] else [])
        ++ (if (getN σ id).cls.has_uninit = true then [Ev.evUninit id] else []) := by
  have hna : getN (setN σ id { getN σ id with priv := setter (getN σ id).priv }) id =
      { getN σ id with priv := setter (getN σ id).priv } := getN_setN_eq σ id _ hl
  rcases hst with hst | hst
  · -- INITIALIZED: release is a no-op
    have hstore : ngl_node_param_set_model σ id true setter setRet =
        (setN (setN σ id { getN σ id with priv := setter (getN σ id).priv }) id
           (reset_non_params
             { getN σ id with priv := setter (getN σ id).priv, state := .uninitialized }),
         setRet,
         if (getN σ id).cls.has_uninit = true then [Ev.evUninit id] else []) := by
      simp [ngl_node_param_set_model, node_uninit, node_release, hna,
        show ((getN σ id).state = NState.uninitialized) = False by simp [hst],
        show ((getN σ id).state = NState.idle) = False by simp [hst],
        show ((getN σ id).state = NState.ready) = False by simp [hst]]
    rw [hstore]
    have hfin : getN (setN (setN σ id { getN σ id with priv := setter (getN σ id).priv }) id
        (reset_non_params
          { getN σ id with priv := setter (getN σ id).priv, state := .uninitialized })) id =
        reset_non_params
          { getN σ id with priv := setter (getN σ id).priv, state := .uninitialized } :=
      getN_setN_eq _ id _ (by rw [length_setN]; exact hl)
    refine ⟨by rw [hfin]; rfl, rfl, ?_, by simp [hst]⟩
    intro i hi hnc
    rw [hfin]
    show (reset_loop (getN σ id).cls.priv_size (getN σ id).cls.params 0
      (setter (getN σ id).priv)).getD i 1 = 0
    exact reset_loop_zero _ _ _ _ i 1 hsort hplen (by omega) hi hnc
  · -- READY: release runs first
    have hstore : ngl_node_param_set_model σ id true setter setRet =
        (setN (setN (setN σ id { getN σ id with priv := setter (getN σ id).priv }) id
             { getN σ id with priv := setter (getN σ id).priv, state := .idle }) id
           (reset_non_params
             { getN σ id with priv := setter (getN σ id).priv, state := .uninitialized }),
         setRet,
         (if (getN σ id).cls.has_release = true then [Ev.evRelease id] else [])
           ++ if (getN σ id).cls.has_uninit = true then [Ev.evUninit id] else []) := by
      have hnb : getN (setN (setN σ id
          { getN σ id with priv := setter (getN σ id).priv }) id
          { getN σ id with priv := setter (getN σ id).priv, state := .idle }) id =
          { getN σ id with priv := setter (getN σ id).priv, state := .idle } :=
        getN_setN_eq _ id _ (by rw [length_setN]; exact hl)
      simp [ngl_node_param_set_model, node_uninit, node_release, hna, hnb,
        show ((getN σ id).state = NState.uninitialized) = False by simp [hst],
        show ((getN σ id).state = NState.idle) = False by simp [hst],
        show ((getN σ id).state = NState.ready) = True by simp [hst]]
    rw [hstore]
    have hfin : getN (setN (setN (setN σ id
          { getN σ id with priv := setter (getN σ id).priv }) id
          { getN σ id with priv := setter (getN σ id).priv, state := .idle }) id
        (reset_non_params
          { getN σ id with priv := setter (getN σ id).priv, state := .uninitialized })) id =
        reset_non_params
          { getN σ id with priv := setter (getN σ id).priv, state := .uninitialized } :=
      getN_setN_eq _ id _ (by rw [length_setN, length_setN]; exact hl)
    refine ⟨by rw [hfin]; rfl, rfl, ?_, by simp [hst]⟩
    intro i hi hnc
    rw [hfin]
    show (reset_loop (getN σ id).cls.priv_size (getN σ id).cls.params 0
      (setter (getN σ id).priv)).getD i 1 = 0
    exact reset_loop_zero _ _ _ _ i 1 hsort hplen (by omega) hi hnc

/-- C9: ngl_node_ref increments the refcount by one and returns the same
node; ngl_node_unrefp decrements by one, frees exactly when the count
was 1 before the call, checks the `!node->ctx` assertion exactly when
freeing, and nulls *nodep in all cases (a null pointer input is left
untouched). -/
theorem C9_ref_unref :
    (∀ σ id, id < List.length σ →
       (getN (ngl_node_ref σ id).1 id).refcount = (getN σ id).refcount + 1 ∧
       (ngl_node_ref σ id).2 = id) ∧
    (∀ σ id, id < List.length σ →
       ((ngl_node_unrefp σ (some id)).deleted = true ↔ (getN σ id).refcount = 1) ∧
       (getN (ngl_node_unrefp σ (some id)).store id).refcount = (getN σ id).refcount - 1 ∧
       (ngl_node_unrefp σ (some id)).nodep = none ∧
       ((ngl_node_unrefp σ (some id)).deleted = true →
          ((ngl_node_unrefp σ (some id)).assertOk = true ↔ (getN σ id).ctx = none))) ∧
    (∀ σ, ngl_node_unrefp σ none =
       { store := σ, nodep := none, deleted := false, assertOk := true }) := by
  refine ⟨?_, ?_, fun σ => rfl⟩
  · intro σ id hl
    constructor
    · show (getN (setN σ id { getN σ id with refcount := (getN σ id).refcount + 1 }) id).refcount
          = (getN σ id).refcount + 1
      rw [getN_setN_eq _ _ _ hl]
    · rfl
  · intro σ id hl
    refine ⟨by simp [ngl_node_unrefp], ?_, rfl, ?_⟩
    · show (getN (setN σ id { getN σ id with refcount := (getN σ id).refcount - 1 }) id).refcount
          = (getN σ id).refcount - 1
      rw [getN_setN_eq _ _ _ hl]
    · intro hdel
      simp only [ngl_node_unrefp] at hdel ⊢
      rw [if_pos (by simpa using hdel)]
      simp [Option.isNone_iff_eq_none]

theorem attach_compat_aux (fuel : Nat) :
    (∀ σ id c σ' r tr, CtxCompat σ c →
       node_set_ctx fuel σ id (some c) = some (σ', r, tr) →
       r = 0 ∧ tr = [] ∧ CtxCompat σ' c ∧ List.length σ' = List.length σ ∧
       (id < List.length σ → (getN σ' id).ctx = some c) ∧
       (∀ j, (getN σ j).ctx = some c → (getN σ' j).ctx = some c)) ∧
    (∀ σ fs c σ' r tr, CtxCompat σ c →
       ctx_fields fuel σ fs (some c) = some (σ', r, tr) →
       r = 0 ∧ tr = [] ∧ CtxCompat σ' c ∧ List.length σ' = List.length σ ∧
       (∀ j, (getN σ j).ctx = some c → (getN σ' j).ctx = some c)) ∧
    (∀ σ ids c σ' r tr, CtxCompat σ c →
       ctx_ids fuel σ ids (some c) = some (σ', r, tr) →
       r = 0 ∧ tr = [] ∧ CtxCompat σ' c ∧ List.length σ' = List.length σ ∧
       (∀ j, (getN σ j).ctx = some c → (getN σ' j).ctx = some c)) := by
  induction fuel with
  | zero =>
    refine ⟨?_, ?_, ?_⟩ <;> intro σ a c σ' r tr hcompat h <;>
      simp [node_set_ctx, ctx_fields, ctx_ids] at h
  | succ f ih =>
    obtain ⟨ih1, ih2, ih3⟩ := ih
    have hones : ∀ σ id c σ0 evs, CtxCompat σ c →
        (if (getN σ id).ctx = none
         then some (setN σ id { getN σ id with ctx := some c }, ([] : List Ev))
         else if (getN σ id).ctx = some c then some (σ, []) else none) = some (σ0, evs) →
        evs = [] ∧ CtxCompat σ0 c ∧ List.length σ0 = List.length σ ∧
        (id < List.length σ → (getN σ0 id).ctx = some c) ∧
        (∀ j, (getN σ j).ctx = some c → (getN σ0 j).ctx = some c) := by
      intro σ id c σ0 evs hcompat h
      by_cases h1 : (getN σ id).ctx = none
      · rw [if_pos h1] at h
        simp only [Option.some.injEq, Prod.mk.injEq] at h
        obtain ⟨rfl, rfl⟩ := h
        refine ⟨rfl, ?_, length_setN σ id _, ?_, ?_⟩
        · intro j
          by_cases hj : id = j
          · subst hj
            by_cases hil : id < List.length σ
            · rw [getN_setN_eq _ _ _ hil]
              right
              rfl
            · rw [getN_out_of_range _ _ _ hil]
              exact hcompat id
          · rw [getN_setN_ne _ _ _ _ hj]
            exact hcompat j
        · intro hil
          rw [getN_setN_eq _ _ _ hil]
        · intro j hj
          by_cases hij : id = j
          · subst hij
            by_cases hil : id < List.length σ
            · rw [getN_setN_eq _ _ _ hil]
            · rw [getN_out_of_range _ _ _ hil]
              exact hj
          · rw [getN_setN_ne _ _ _ _ hij]
            exact hj
      · rw [if_neg h1] at h
        rcases hcompat id with hc | hc
        · exact absurd hc h1
        · rw [if_pos hc] at h
          simp only [Option.some.injEq, Prod.mk.injEq] at h
          obtain ⟨rfl, rfl⟩ := h
          exact ⟨rfl, hcompat, rfl, fun _ => hc, fun j hj => hj⟩
    refine ⟨?_, ?_, ?_⟩
    · intro σ id c σ' r tr hcompat h
      simp only [node_set_ctx] at h
      cases hhead : (if (getN σ id).ctx = none
          then some (setN σ id { getN σ id with ctx := some c }, ([] : List Ev))
          else if (getN σ id).ctx = some c then some (σ, []) else none) with
      | none =>
        rw [hhead] at h
        dsimp only at h
        simp only [Option.some.injEq, Prod.mk.injEq] at h
        obtain ⟨rfl, rfl, rfl⟩ := h
        exfalso
        by_cases h1 : (getN σ id).ctx = none
        · rw [if_pos h1] at hhead
          exact absurd hhead (by simp)
        · rcases hcompat id with hc | hc
          · exact absurd hc h1
          · rw [if_neg h1, if_pos hc] at hhead
            exact absurd hhead (by simp)
      | some res0 =>
        obtain ⟨σ0, evs⟩ := res0
        rw [hhead] at h
        dsimp only at h
        obtain ⟨rfl, hcomp0, hlen0, hid0, hpres0⟩ := hones σ id c σ0 evs hcompat hhead
        cases hcf : ctx_fields f σ0 (getN σ id).fields (some c) with
        | none => rw [hcf] at h; exact absurd h (by simp)
        | some res1 =>
          obtain ⟨σ1, r1, tr1⟩ := res1
          rw [hcf] at h
          dsimp only at h
          obtain ⟨rfl, rfl, hcomp1, hlen1, hpres1⟩ := ih2 σ0 _ c _ _ _ hcomp0 hcf
          rw [if_neg (by omega)] at h
          cases hci : ctx_ids f σ1 (getN σ id).glstates (some c) with
          | none => rw [hci] at h; exact absurd h (by simp)
          | some res2 =>
            obtain ⟨σ2, r2, tr2⟩ := res2
            rw [hci] at h
            dsimp only at h
            simp only [Option.some.injEq, Prod.mk.injEq] at h
            obtain ⟨rfl, rfl, rfl⟩ := h
            obtain ⟨rfl, rfl, hcomp2, hlen2, hpres2⟩ := ih3 σ1 _ c _ _ _ hcomp1 hci
            refine ⟨rfl, rfl, hcomp2, by omega, ?_, ?_⟩
            · intro hil
              exact hpres2 id (hpres1 id (hid0 hil))
            · intro j hj
              exact hpres2 j (hpres1 j (hpres0 j hj))
    · intro σ fs c σ' r tr hcompat h
      match fs with
      | [] =>
        simp only [ctx_fields, Option.some.injEq, Prod.mk.injEq] at h
        obtain ⟨rfl, rfl, rfl⟩ := h
        exact ⟨rfl, rfl, hcompat, rfl, fun j hj => hj⟩
      | fld :: rest =>
        simp only [ctx_fields] at h
        match fld with
        | .pnode none =>
          obtain ⟨hr, ht, hcomp1, hlen1, hpres1⟩ := ih2 σ rest c _ _ _ hcompat h
          exact ⟨hr, ht, hcomp1, hlen1, hpres1⟩
        | .pnode (some ch) =>
          dsimp only at h
          cases hc1 : node_set_ctx f σ ch (some c) with
          | none => rw [hc1] at h; exact absurd h (by simp)
          | some res1 =>
            obtain ⟨σ1, r1, tr1⟩ := res1
            rw [hc1] at h
            dsimp only at h
            obtain ⟨rfl, rfl, hcomp1, hlen1, _, hpres1⟩ := ih1 σ ch c _ _ _ hcompat hc1
            rw [if_neg (by omega)] at h
            cases hc2 : ctx_fields f σ1 rest (some c) with
            | none => rw [hc2] at h; exact absurd h (by simp)
            | some res2 =>
              obtain ⟨σ2, r2, tr2⟩ := res2
              rw [hc2] at h
              dsimp only at h
              simp only [Option.some.injEq, Prod.mk.injEq] at h
              obtain ⟨rfl, rfl, rfl⟩ := h
              obtain ⟨rfl, rfl, hcomp2, hlen2, hpres2⟩ := ih2 σ1 rest c _ _ _ hcomp1 hc2
              exact ⟨rfl, rfl, hcomp2, by omega, fun j hj => hpres2 j (hpres1 j hj)⟩
        | .pnodelist cs =>
          dsimp only at h
          cases hc1 : ctx_ids f σ cs (some c) with
          | none => rw [hc1] at h; exact absurd h (by simp)
          | some res1 =>
            obtain ⟨σ1, r1, tr1⟩ := res1
            rw [hc1] at h
            dsimp only at h
            obtain ⟨rfl, rfl, hcomp1, hlen1, hpres1⟩ := ih3 σ cs c _ _ _ hcompat hc1
            rw [if_neg (by omega)] at h
            cases hc2 : ctx_fields f σ1 rest (some c) with
            | none => rw [hc2] at h; exact absurd h (by simp)
            | some res2 =>
              obtain ⟨σ2, r2, tr2⟩ := res2
              rw [hc2] at h
              dsimp only at h
              simp only [Option.some.injEq, Prod.mk.injEq] at h
              obtain ⟨rfl, rfl, rfl⟩ := h
              obtain ⟨rfl, rfl, hcomp2, hlen2, hpres2⟩ := ih2 σ1 rest c _ _ _ hcomp1 hc2
              exact ⟨rfl, rfl, hcomp2, by omega, fun j hj => hpres2 j (hpres1 j hj)⟩
        | .pnodedict cs =>
          dsimp only at h
          cases hc1 : ctx_ids f σ cs (some c) with
          | none => rw [hc1] at h; exact absurd h (by simp)
          | some res1 =>
            obtain ⟨σ1, r1, tr1⟩ := res1
            rw [hc1] at h
            dsimp only at h
            obtain ⟨rfl, rfl, hcomp1, hlen1, hpres1⟩ := ih3 σ cs c _ _ _ hcompat hc1
            rw [if_neg (by omega)] at h
            cases hc2 : ctx_fields f σ1 rest (some c) with
            | none => rw [hc2] at h; exact absurd h (by simp)
            | some res2 =>
              obtain ⟨σ2, r2, tr2⟩ := res2
              rw [hc2] at h
              dsimp only at h
              simp only [Option.some.injEq, Prod.mk.injEq] at h
              obtain ⟨rfl, rfl, rfl⟩ := h
              obtain ⟨rfl, rfl, hcomp2, hlen2, hpres2⟩ := ih2 σ1 rest c _ _ _ hcomp1 hc2
              exact ⟨rfl, rfl, hcomp2, by omega, fun j hj => hpres2 j (hpres1 j hj)⟩
    · intro σ ids c σ' r tr hcompat h
      match ids with
      | [] =>
        simp only [ctx_ids, Option.some.injEq, Prod.mk.injEq] at h
        obtain ⟨rfl, rfl, rfl⟩ := h
        exact ⟨rfl, rfl, hcompat, rfl, fun j hj => hj⟩
      | ch :: rest =>
        simp only [ctx_ids] at h
        cases hc1 : node_set_ctx f σ ch (some c) with
        | none => rw [hc1] at h; exact absurd h (by simp)
        | some res1 =>
          obtain ⟨σ1, r1, tr1⟩ := res1
          rw [hc1] at h
          dsimp only at h
          obtain ⟨rfl, rfl, hcomp1, hlen1, _, hpres1⟩ := ih1 σ ch c _ _ _ hcompat hc1
          rw [if_neg (by omega)] at h
          cases hc2 : ctx_ids f σ1 rest (some c) with
          | none => rw [hc2] at h; exact absurd h (by simp)
          | some res2 =>
            obtain ⟨σ2, r2, tr2⟩ := res2
            rw [hc2] at h
            dsimp only at h
            simp only [Option.some.injEq, Prod.mk.injEq] at h
            obtain ⟨rfl, rfl, rfl⟩ := h
            obtain ⟨rfl, rfl, hcomp2, hlen2, hpres2⟩ := ih3 σ1 rest c _ _ _ hcomp1 hc2
            exact ⟨rfl, rfl, hcomp2, by omega, fun j hj => hpres2 j (hpres1 j hj)⟩

/-- C8 (amended): attaching a node already owned by a different context
fails with -1 and leaves the store (hence node->ctx) untouched; and when
every node of the store is unattached or already attached to c
(the attachment coherence the engine maintains), attaching to c
succeeds (returns 0) and sets node->ctx = c.  Re-attachment to the same
context can still fail when a descendant is owned by another context
(see C8_counterexample). -/
theorem C8_attach_exclusive :
    (∀ fuel σ id c1 c2, (getN σ id).ctx = some c1 → c2 ≠ c1 →
       node_set_ctx (fuel + 1) σ id (some c2) = some (σ, -1, [])) ∧
    (∀ fuel σ id c σ' r tr, CtxCompat σ c →
       node_set_ctx fuel σ id (some c) = some (σ', r, tr) →
       r = 0 ∧ CtxCompat σ' c ∧
       (id < List.length σ → (getN σ' id).ctx = some c)) := by
  constructor
  · intro fuel σ id c1 c2 hctx hne
    simp only [node_set_ctx]
    rw [if_neg (by rw [hctx]; simp), if_neg (by rw [hctx]; simp; exact fun he => hne he.symm)]
  · intro fuel σ id c σ' r tr hcompat h
    obtain ⟨hr, _, hcomp, _, hid, _⟩ := (attach_compat_aux fuel).1 σ id c σ' r tr hcompat h
    exact ⟨hr, hcomp, hid⟩

theorem node_eq_of_stateErase (n m : Node) (h : stateErase n = stateErase m)
    (hs : n.state = m.state) : n = m := by
  cases n
  cases m
  simp [stateErase] at h
  simp_all

theorem init_preserves_ready (fuel : Nat) (σ : Store) (id : Nat) (σ' : Store) (r : Int)
    (tr : List Ev) (h : ngli_node_init fuel σ id = some (σ', r, tr)) (c : Nat)
    (hc : (getN σ c).state = .ready) : getN σ' c = getN σ c := by
  obtain ⟨_, hshell, hstate, _⟩ := (init_meta fuel).1 σ id _ _ _ h
  exact node_eq_of_stateErase _ _ (hshell c) (hstate c (by rw [hc]; simp))

theorem count_zero_of_all_init (tr : List Ev) (hall : ∀ e ∈ tr, ∃ j, e = Ev.evInit j)
    (c : Nat) : tr.count (Ev.evPrefetch c) = 0 := by
  rw [List.count_eq_zero]
  intro hmem
  obtain ⟨j, hj⟩ := hall _ hmem
  exact absurd hj (by simp)

theorem getN_oor (σ : Store) (id : Nat) (h : ¬ id < List.length σ) :
    getN σ id = default := by
  rw [getN, List.getD_eq_getElem?_getD, List.getElem?_eq_none (by omega)]
  rfl

theorem init_is_active (fuel : Nat) (σ : Store) (id : Nat) (σ' : Store) (r : Int)
    (tr : List Ev) (h : ngli_node_init fuel σ id = some (σ', r, tr)) (j : Nat) :
    (getN σ' j).is_active = (getN σ j).is_active := by
  have hc := congrArg Node.is_active (((init_meta fuel).1 σ id _ _ _ h).2.1 j)
  simpa [stateErase] using hc

/-- Behaviour of node_prefetch with respect to prefetch events on node
c: a READY and active node is untouched and gets no event; at most one
event is emitted; and an emitted event (on a successful call) means c is
the prefetched node, now READY with its activity flag unchanged. -/
theorem prefetch_count (fuel : Nat) (σ : Store) (id : Nat) (σ' : Store) (r : Int)
    (tr : List Ev) (h : node_prefetch fuel σ id = some (σ', r, tr)) (c : Nat) :
    ((getN σ c).state = .ready → (getN σ c).is_active = true →
       getN σ' c = getN σ c ∧ tr.count (Ev.evPrefetch c) = 0) ∧
    tr.count (Ev.evPrefetch c) ≤ 1 ∧
    (tr.count (Ev.evPrefetch c) = 1 → ¬ r < 0 →
       c = id ∧ (getN σ' c).state = .ready ∧
         (getN σ' c).is_active = (getN σ c).is_active) := by
  simp only [node_prefetch] at h
  by_cases h1 : (getN σ id).state = .ready
  · rw [if_pos h1] at h
    simp only [Option.some.injEq, Prod.mk.injEq] at h
    obtain ⟨rfl, rfl, rfl⟩ := h
    exact ⟨fun _ _ => ⟨rfl, rfl⟩, by simp, by simp⟩
  · rw [if_neg h1] at h
    cases hi : ngli_node_init fuel σ id with
    | none => rw [hi] at h; exact absurd h (by simp)
    | some res =>
      obtain ⟨σ1, r1, tr1⟩ := res
      rw [hi] at h
      dsimp only at h
      obtain ⟨hlen1, hshell1, hstate1, htr1⟩ := (init_meta fuel).1 σ id _ _ _ hi
      have hcnt1 : tr1.count (Ev.evPrefetch c) = 0 := count_zero_of_all_init tr1 htr1 c
      have hne : (getN σ c).state = .ready → c ≠ id := by
        intro hr he
        subst he
        exact h1 hr
      by_cases hr1 : r1 < 0
      · rw [if_pos hr1] at h
        simp only [Option.some.injEq, Prod.mk.injEq] at h
        obtain ⟨rfl, rfl, rfl⟩ := h
        refine ⟨fun hrd ha => ⟨init_preserves_ready fuel σ id _ _ _ hi c hrd, hcnt1⟩,
          by omega, ?_⟩
        intro hcne hrneg
        omega
      · rw [if_neg hr1] at h
        have hcb2 : ∀ x ∈ (if (getN σ1 id).cls.has_prefetch = true
            then ((getN σ1 id).cls.prefetch_ret, [Ev.evPrefetch id])
            else ((0:Int), ([]:List Ev))).2, x = Ev.evPrefetch id := by
          intro x hx
          split at hx <;> simp_all
        have hcb2cnt : ((if (getN σ1 id).cls.has_prefetch = true
            then ((getN σ1 id).cls.prefetch_ret, [Ev.evPrefetch id])
            else ((0:Int), ([]:List Ev))).2).count (Ev.evPrefetch c) ≤ 1 := by
          split
          · simp only [List.count_cons, List.count_nil]
            split_ifs <;> omega
          · simp
        have hcbc : ∀ hh : ((if (getN σ1 id).cls.has_prefetch = true
            then ((getN σ1 id).cls.prefetch_ret, [Ev.evPrefetch id])
            else ((0:Int), ([]:List Ev))).2).count (Ev.evPrefetch c) = 1,
            c = id ∧ (getN σ1 id).cls.has_prefetch = true := by
          intro hh
          constructor
          · by_contra hcne
            rcases Nat.eq_zero_or_pos (((if (getN σ1 id).cls.has_prefetch = true
                then ((getN σ1 id).cls.prefetch_ret, [Ev.evPrefetch id])
                else ((0:Int), ([]:List Ev))).2).count (Ev.evPrefetch c)) with hz | hp
            · omega
            · have := List.count_pos_iff.mp (by omega :
                0 < ((if (getN σ1 id).cls.has_prefetch = true
                  then ((getN σ1 id).cls.prefetch_ret, [Ev.evPrefetch id])
                  else ((0:Int), ([]:List Ev))).2).count (Ev.evPrefetch c))
              have := hcb2 _ this
              simp at this
              exact hcne this
          · by_contra hnp
            rw [if_neg hnp] at hh
            simp at hh
        by_cases hcb : (if (getN σ1 id).cls.has_prefetch = true
            then ((getN σ1 id).cls.prefetch_ret, [Ev.evPrefetch id])
            else ((0:Int), ([]:List Ev))).1 < 0
        · rw [if_pos hcb] at h
          simp only [Option.some.injEq, Prod.mk.injEq] at h
          obtain ⟨rfl, rfl, rfl⟩ := h
          refine ⟨?_, ?_, ?_⟩
          · intro hrd ha
            refine ⟨init_preserves_ready fuel σ id _ _ _ hi c hrd, ?_⟩
            rw [List.count_append, hcnt1]
            have hcid := hne hrd
            split
            · simp only [List.count_cons, List.count_nil]
              rw [if_neg (by simp; exact fun he => hcid he.symm)]
            · simp
          · rw [List.count_append, hcnt1]
            omega
          · intro hcne hrneg
            exact absurd hcb hrneg
        · rw [if_neg hcb] at h
          simp only [Option.some.injEq, Prod.mk.injEq] at h
          obtain ⟨rfl, rfl, rfl⟩ := h
          refine ⟨?_, ?_, ?_⟩
          · intro hrd ha
            have hcid := hne hrd
            constructor
            · rw [getN_setN_ne _ _ _ _ (fun he => hcid he.symm)]
              exact init_preserves_ready fuel σ id _ _ _ hi c hrd
            · rw [List.count_append, hcnt1]
              split
              · simp only [List.count_cons, List.count_nil]
                rw [if_neg (by simp; exact fun he => hcid he.symm)]
              · simp
          · rw [List.count_append, hcnt1]
            omega
          · intro hcne hrneg
            rw [List.count_append, hcnt1] at hcne
            obtain ⟨rfl, hhasp⟩ := hcbc (by omega)
            have hl1 : c < List.length σ1 := by
              by_contra hnl
              rw [getN_oor σ1 c hnl] at hhasp
              exact absurd hhasp (by decide)
            rw [getN_setN_eq _ _ _ hl1]
            refine ⟨rfl, rfl, ?_⟩
            show (getN σ1 c).is_active = (getN σ c).is_active
            exact init_is_active fuel σ c _ _ _ hi c

theorem PF_refl (σ : Store) (r : Int) (c : Nat) : PF σ σ r [] c :=
  ⟨fun _ _ => ⟨rfl, rfl⟩, by simp, by simp⟩

theorem PF_comp (σ σ1 σ2 : Store) (r1 r2 : Int) (tr1 tr2 : List Ev) (c : Nat)
    (h1 : PF σ σ1 r1 tr1 c) (h2 : PF σ1 σ2 r2 tr2 c) (hr1 : ¬ r1 < 0) :
    PF σ σ2 r2 (tr1 ++ tr2) c := by
  obtain ⟨p1, p2, p3⟩ := h1
  obtain ⟨q1, q2, q3⟩ := h2
  refine ⟨?_, ?_, ?_⟩
  · intro hrd ha
    obtain ⟨he1, hc1⟩ := p1 hrd ha
    obtain ⟨he2, hc2⟩ := q1 (by rw [he1]; exact hrd) (by rw [he1]; exact ha)
    rw [List.count_append, hc1, hc2, he2, he1]
    exact ⟨rfl, rfl⟩
  · rw [List.count_append]
    rcases Nat.lt_or_ge (tr1.count (Ev.evPrefetch c)) 1 with hc1 | hc1
    · omega
    · have hc1e : tr1.count (Ev.evPrefetch c) = 1 := by omega
      obtain ⟨hrd, ha⟩ := p3 hc1e hr1
      obtain ⟨he2, hc2⟩ := q1 hrd ha
      omega
  · rw [List.count_append]
    intro hsum hr2
    rcases Nat.lt_or_ge (tr1.count (Ev.evPrefetch c)) 1 with hc1 | hc1
    · have : tr2.count (Ev.evPrefetch c) = 1 := by omega
      exact q3 this hr2
    · have hc1e : tr1.count (Ev.evPrefetch c) = 1 := by omega
      obtain ⟨hrd, ha⟩ := p3 hc1e hr1
      obtain ⟨he2, _⟩ := q1 hrd ha
      rw [he2]
      exact ⟨hrd, ha⟩

theorem release_getN_ne (σ : Store) (id c : Nat) (hc : ¬ id = c) :
    getN (node_release σ id).1 c = getN σ c := by
  rw [node_release]
  split_ifs <;> first
    | rfl
    | exact getN_setN_ne _ _ _ _ hc

theorem release_no_prefetch (σ : Store) (id c : Nat) :
    ((node_release σ id).2).count (Ev.evPrefetch c) = 0 := by
  rw [node_release]
  split_ifs <;> simp

theorem release_PF (σ : Store) (id : Nat) (hact : ¬ (getN σ id).is_active = true) (c : Nat) :
    PF σ (node_release σ id).1 0 (node_release σ id).2 c := by
  refine ⟨?_, ?_, ?_⟩
  · intro hrd ha
    have hc : ¬ id = c := by
      intro he
      subst he
      exact hact ha
    exact ⟨release_getN_ne σ id c hc, release_no_prefetch σ id c⟩
  · rw [release_no_prefetch]
    omega
  · rw [release_no_prefetch]
    omega

theorem prefetch_PF (fuel : Nat) (σ : Store) (id : Nat) (σ' : Store) (r : Int)
    (tr : List Ev) (h : node_prefetch fuel σ id = some (σ', r, tr))
    (hact : (getN σ id).is_active = true) (c : Nat) : PF σ σ' r tr c := by
  obtain ⟨p1, p2, p3⟩ := prefetch_count fuel σ id σ' r tr h c
  refine ⟨p1, p2, ?_⟩
  intro hcnt hr
  obtain ⟨rfl, hrd, ha⟩ := p3 hcnt hr
  exact ⟨hrd, by rw [ha]; exact hact⟩

/-- Within a single reconcile pass, any node receives at most one
prefetch-callback invocation (and a READY active node is left alone). -/
theorem hrp_meta (fuel : Nat) :
    (∀ σ id t σ' r tr,
       ngli_node_honor_release_prefetch fuel σ id t = some (σ', r, tr) →
       ∀ c, PF σ σ' r tr c) ∧
    (∀ σ fs t σ' r tr, hrp_fields fuel σ fs t = some (σ', r, tr) → ∀ c, PF σ σ' r tr c) ∧
    (∀ σ ids t σ' r tr, hrp_ids fuel σ ids t = some (σ', r, tr) → ∀ c, PF σ σ' r tr c) := by
  induction fuel with
  | zero =>
    refine ⟨?_, ?_, ?_⟩ <;> intro σ a t σ' r tr h <;>
      simp [ngli_node_honor_release_prefetch, hrp_fields, hrp_ids] at h
  | succ f ih =>
    obtain ⟨ih1, ih2, ih3⟩ := ih
    refine ⟨?_, ?_, ?_⟩
    · intro σ id t σ' r tr h c
      simp only [ngli_node_honor_release_prefetch] at h
      by_cases h1 : (getN σ id).visit_time ≠ t
      · rw [if_pos h1] at h
        simp only [Option.some.injEq, Prod.mk.injEq] at h
        obtain ⟨rfl, rfl, rfl⟩ := h
        exact PF_refl _ _ _
      · rw [if_neg h1] at h
        cases hf : hrp_fields f σ (getN σ id).fields t with
        | none => rw [hf] at h; exact absurd h (by simp)
        | some res1 =>
          obtain ⟨σ1, r1, tr1⟩ := res1
          rw [hf] at h
          dsimp only at h
          have hPF1 : PF σ σ1 r1 tr1 c := ih2 σ _ t _ _ _ hf c
          by_cases hr1 : r1 < 0
          · rw [if_pos hr1] at h
            simp only [Option.some.injEq, Prod.mk.injEq] at h
            obtain ⟨rfl, rfl, rfl⟩ := h
            exact hPF1
          · rw [if_neg hr1] at h
            by_cases hact : (getN σ1 id).is_active = true
            · rw [if_pos hact] at h
              cases hp : node_prefetch f σ1 id with
              | none => rw [hp] at h; exact absurd h (by simp)
              | some res2 =>
                obtain ⟨σ2, r2, tr2⟩ := res2
                rw [hp] at h
                dsimp only at h
                simp only [Option.some.injEq, Prod.mk.injEq] at h
                obtain ⟨rfl, rfl, rfl⟩ := h
                exact PF_comp _ _ _ _ _ _ _ _ hPF1
                  (prefetch_PF f σ1 id _ _ tr2 hp hact c) hr1
            · rw [if_neg hact] at h
              simp only [Option.some.injEq, Prod.mk.injEq] at h
              obtain ⟨rfl, rfl, rfl⟩ := h
              exact PF_comp _ _ _ _ _ _ _ _ hPF1 (release_PF σ1 id hact c) hr1
    · intro σ fs t σ' r tr h c
      match fs with
      | [] =>
        simp only [hrp_fields, Option.some.injEq, Prod.mk.injEq] at h
        obtain ⟨rfl, rfl, rfl⟩ := h
        exact PF_refl _ _ _
      | fld :: rest =>
        simp only [hrp_fields] at h
        match fld with
        | .pnode none =>
          exact ih2 σ rest t _ _ _ h c
        | .pnode (some ch) =>
          dsimp only at h
          cases hc1 : ngli_node_honor_release_prefetch f σ ch t with
          | none => rw [hc1] at h; exact absurd h (by simp)
          | some res1 =>
            obtain ⟨σ1, r1, tr1⟩ := res1
            rw [hc1] at h
            dsimp only at h
            have hPF1 : PF σ σ1 r1 tr1 c := ih1 σ ch t _ _ _ hc1 c
            by_cases hr1 : r1 < 0
            · rw [if_pos hr1] at h
              simp only [Option.some.injEq, Prod.mk.injEq] at h
              obtain ⟨rfl, rfl, rfl⟩ := h
              exact hPF1
            · rw [if_neg hr1] at h
              cases hc2 : hrp_fields f σ1 rest t with
              | none => rw [hc2] at h; exact absurd h (by simp)
              | some res2 =>
                obtain ⟨σ2, r2, tr2⟩ := res2
                rw [hc2] at h
                dsimp only at h
                simp only [Option.some.injEq, Prod.mk.injEq] at h
                obtain ⟨rfl, rfl, rfl⟩ := h
                exact PF_comp _ _ _ _ _ _ _ _ hPF1 (ih2 σ1 rest t _ _ _ hc2 c) hr1
        | .pnodelist cs =>
          dsimp only at h
          cases hc1 : hrp_ids f σ cs t with
          | none => rw [hc1] at h; exact absurd h (by simp)
          | some res1 =>
            obtain ⟨σ1, r1, tr1⟩ := res1
            rw [hc1] at h
            dsimp only at h
            have hPF1 : PF σ σ1 r1 tr1 c := ih3 σ cs t _ _ _ hc1 c
            by_cases hr1 : r1 < 0
            · rw [if_pos hr1] at h
              simp only [Option.some.injEq, Prod.mk.injEq] at h
              obtain ⟨rfl, rfl, rfl⟩ := h
              exact hPF1
            · rw [if_neg hr1] at h
              cases hc2 : hrp_fields f σ1 rest t with
              | none => rw [hc2] at h; exact absurd h (by simp)
              | some res2 =>
                obtain ⟨σ2, r2, tr2⟩ := res2
                rw [hc2] at h
                dsimp only at h
                simp only [Option.some.injEq, Prod.mk.injEq] at h
                obtain ⟨rfl, rfl, rfl⟩ := h
                exact PF_comp _ _ _ _ _ _ _ _ hPF1 (ih2 σ1 rest t _ _ _ hc2 c) hr1
        | .pnodedict cs =>
          dsimp only at h
          cases hc1 : hrp_ids f σ cs t with
          | none => rw [hc1] at h; exact absurd h (by simp)
          | some res1 =>
            obtain ⟨σ1, r1, tr1⟩ := res1
            rw [hc1] at h
            dsimp only at h
            have hPF1 : PF σ σ1 r1 tr1 c := ih3 σ cs t _ _ _ hc1 c
            by_cases hr1 : r1 < 0
            · rw [if_pos hr1] at h
              simp only [Option.some.injEq, Prod.mk.injEq] at h
              obtain ⟨rfl, rfl, rfl⟩ := h
              exact hPF1
            · rw [if_neg hr1] at h
              cases hc2 : hrp_fields f σ1 rest t with
              | none => rw [hc2] at h; exact absurd h (by simp)
              | some res2 =>
                obtain ⟨σ2, r2, tr2⟩ := res2
                rw [hc2] at h
                dsimp only at h
                simp only [Option.some.injEq, Prod.mk.injEq] at h
                obtain ⟨rfl, rfl, rfl⟩ := h
                exact PF_comp _ _ _ _ _ _ _ _ hPF1 (ih2 σ1 rest t _ _ _ hc2 c) hr1
    · intro σ ids t σ' r tr h c
      match ids with
      | [] =>
        simp only [hrp_ids, Option.some.injEq, Prod.mk.injEq] at h
        obtain ⟨rfl, rfl, rfl⟩ := h
        exact PF_refl _ _ _
      | ch :: rest =>
        simp only [hrp_ids] at h
        cases hc1 : ngli_node_honor_release_prefetch f σ ch t with
        | none => rw [hc1] at h; exact absurd h (by simp)
        | some res1 =>
          obtain ⟨σ1, r1, tr1⟩ := res1
          rw [hc1] at h
          dsimp only at h
          have hPF1 : PF σ σ1 r1 tr1 c := ih1 σ ch t _ _ _ hc1 c
          by_cases hr1 : r1 < 0
          · rw [if_pos hr1] at h
            simp only [Option.some.injEq, Prod.mk.injEq] at h
            obtain ⟨rfl, rfl, rfl⟩ := h
            exact hPF1
          · rw [if_neg hr1] at h
            cases hc2 : hrp_ids f σ1 rest t with
            | none => rw [hc2] at h; exact absurd h (by simp)
            | some res2 =>
              obtain ⟨σ2, r2, tr2⟩ := res2
              rw [hc2] at h
              dsimp only at h
              simp only [Option.some.injEq, Prod.mk.injEq] at h
              obtain ⟨rfl, rfl, rfl⟩ := h
              exact PF_comp _ _ _ _ _ _ _ _ hPF1 (ih3 σ1 rest t _ _ _ hc2 c) hr1

/-- C5: node_prefetch is idempotent on a READY node (no class prefetch
callback invocation), and during one reconcile pass every node receives
at most one prefetch-callback invocation, no matter how many paths reach
it (diamond DAGs included). -/
theorem C5_prefetch_at_most_once :
    (∀ fuel σ id, (getN σ id).state = .ready →
       node_prefetch fuel σ id = some (σ, 0, [])) ∧
    (∀ fuel σ id t σ' r tr c,
       ngli_node_honor_release_prefetch fuel σ id t = some (σ', r, tr) →
       tr.count (Ev.evPrefetch c) ≤ 1) := by
  constructor
  · intro fuel σ id h
    rw [node_prefetch]
    rw [if_pos h]
  · intro fuel σ id t σ' r tr c h
    exact (((hrp_meta fuel).1 σ id t σ' r tr h) c).2.1

/-- C2: the reconcile pass is gated by the visit stamp and runs
post-order.  If node.visit_time != t the call returns 0 leaving the
store untouched with no callback invoked; otherwise it first reconciles
every node-typed child (single, list, dict fields, in schema order) via
hrp_fields, and only then applies the node own disposition: prefetch if
is_active, else release — so the disposition trace follows the
children traces. -/
theorem C2_reconcile_postorder (fuel : Nat) (σ : Store) (id : Nat) (t : Int) :
    ((getN σ id).visit_time ≠ t →
      ngli_node_honor_release_prefetch (fuel + 1) σ id t = some (σ, 0, [])) ∧
    ((getN σ id).visit_time = t →
      ngli_node_honor_release_prefetch (fuel + 1) σ id t =
        match hrp_fields fuel σ (getN σ id).fields t with
        | none => none
        | some (σ1, r1, tr1) =>
          if r1 < 0 then some (σ1, r1, tr1)
          else if (getN σ1 id).is_active then
            match node_prefetch fuel σ1 id with
            | none => none
            | some (σ2, r2, tr2) => some (σ2, r2, tr1 ++ tr2)
          else some ((node_release σ1 id).1, 0, tr1 ++ (node_release σ1 id).2)) := by
  constructor <;> intro h <;> simp [ngli_node_honor_release_prefetch, h]

/-- Witness for C2_reconcile_postorder on the diamond store: the stamp
gate skips at t = 8, and at t = 7 the pass runs children first, then the
node disposition (prefetch order 3, 1, 2, 0). -/
theorem C2_witness :
    ((getN diamondVisited 0).visit_time ≠ 8 ∧
      ngli_node_honor_release_prefetch 10 diamondVisited 0 8 =
        some (diamondVisited, 0, [])) ∧
    ((getN diamondVisited 0).visit_time = 7 ∧
      ngli_node_honor_release_prefetch 10 diamondVisited 0 7 =
        some (diamondReady, 0, diamondTrace)) :=
  ⟨⟨by decide, (C2_reconcile_postorder 9 diamondVisited 0 8).1 (by decide)⟩,
   ⟨rfl, Eq.trans ((C2_reconcile_postorder 9 diamondVisited 0 7).2 rfl) rfl⟩⟩

/-- Witness for C5_prefetch_at_most_once: in the diamond reconcile the
shared child 3 is prefetched exactly once, and a second node_prefetch on
the now-READY child is a no-op. -/
theorem C5_witness :
    ((getN diamondReady 3).state = .ready ∧
      node_prefetch 1 diamondReady 3 = some (diamondReady, 0, [])) ∧
    (ngli_node_honor_release_prefetch 10 diamondVisited 0 7 =
        some (diamondReady, 0, diamondTrace) ∧
      diamondTrace.count (Ev.evPrefetch 3) ≤ 1) :=
  ⟨⟨rfl, C5_prefetch_at_most_once.1 1 diamondReady 3 rfl⟩,
   ⟨rfl, C5_prefetch_at_most_once.2 10 diamondVisited 0 7 diamondReady 0 diamondTrace 3 rfl⟩⟩

/-- Witness for C3_update_memoized: after the first update at t = 5 the
second call returns the same store with no callback invocations. -/
theorem C3_witness :
    0 < List.length updStore ∧
    ngli_node_update 3 updStore 0 5 = some (updStoreAfter, 0, updTrace) ∧
    ngli_node_update 3 updStoreAfter 0 5 = some (updStoreAfter, 0, []) :=
  ⟨by decide, rfl,
   C3_update_memoized 3 1 updStore 0 5 updStoreAfter updTrace (by decide) rfl⟩

/-- C6 (counterexample): for a class without an update callback, a
successful ngli_node_update neither stamps last_update_time = t nor
makes the node READY, contradicting the claim's "including classes whose
update callback is absent". -/
theorem C6_counterexample :
    (getN noUpdStore 0).last_update_time ≠ 0 ∧
    ngli_node_update 3 noUpdStore 0 0 = some (noUpdAfter, 0, []) ∧
    (getN noUpdAfter 0).last_update_time ≠ 0 ∧
    (getN noUpdAfter 0).state ≠ .ready :=
  ⟨by decide, rfl, by decide, by decide⟩

/-- Witness for C6_update_first_call on both conjuncts. -/
theorem C6_witness :
    (0 < List.length updStore ∧ (getN updStore 0).cls.has_update = true ∧
      (getN updStore 0).last_update_time ≠ 5 ∧
      ngli_node_update 3 updStore 0 5 = some (updStoreAfter, 0, updTrace)) ∧
    ((getN updStoreAfter 0).state = .ready ∧
      (getN updStoreAfter 0).last_update_time = 5 ∧ Ev.evUpdate 0 ∈ updTrace) ∧
    ((getN noUpdStore 0).cls.has_update = false ∧
      ngli_node_update 3 noUpdStore 0 0 = ngli_node_init 2 noUpdStore 0) :=
  ⟨⟨by decide, rfl, by decide, rfl⟩,
   C6_update_first_call.1 3 updStore 0 5 updStoreAfter updTrace (by decide) rfl
     (by decide) rfl,
   ⟨rfl, C6_update_first_call.2 2 noUpdStore 0 0 rfl⟩⟩

/-- Witness for C4_visit_last_writer_wins: child 2 visited from active
parent 0 and then inactive parent 1 ends inactive (the p2 path wins). -/
theorem C4_witness :
    (2 < List.length lwwStore ∧ (getN lwwStore 2).state = .initialized ∧
      (getN lwwStore 2).cls.has_visit = false ∧ (getN lwwStore 2).fields = [] ∧
      (0 : Nat) ≠ 2 ∧ (1 : Nat) ≠ 2) ∧
    (getN (visitSet (visitSet lwwStore 2 ((getN lwwStore 0).is_active) 7) 2
        ((getN lwwStore 1).is_active) 7) 2).is_active = (getN lwwStore 1).is_active ∧
    (getN lwwStore 1).is_active = false :=
  ⟨⟨by decide, rfl, rfl, rfl, by decide, by decide⟩,
   (C4_visit_last_writer_wins.2 0 0 lwwStore 2 0 1 7 (by decide) rfl rfl rfl
      (by decide) (by decide)).2.2.1,
   rfl⟩

/-- Witness for C7_param_set_forces_uninit: a READY node with one int
parameter at offset 4 in a 12-byte block; after the set, the node is
UNINITIALIZED, byte 0 (not parameter-covered) is zeroed, and the release
and uninit callbacks ran in order. -/
theorem C7_witness :
    ((getN c7Store 0).state = .ready ∧ (getN c7Store 0).ctx.isSome = true) ∧
    (getN (ngl_node_param_set_model c7Store 0 true (fun bs => bs) 0).1 0).state
      = .uninitialized ∧
    (getN (ngl_node_param_set_model c7Store 0 true (fun bs => bs) 0).1 0).priv.getD 0 1
      = 0 ∧
    (ngl_node_param_set_model c7Store 0 true (fun bs => bs) 0).2.2 =
      [Ev.evRelease 0, Ev.evUninit 0] := by
  have hthm := C7_param_set_forces_uninit c7Store 0 (fun bs => bs) 0 (by decide)
    (by decide) (Or.inr rfl)
    ⟨by decide, by show 4 + opt_size PType.tint ≤ (getN c7Store 0).cls.priv_size; decide⟩ rfl
  refine ⟨⟨rfl, by decide⟩, hthm.1, ?_, ?_⟩
  · refine hthm.2.2.1 0 (by decide) ?_
    rintro ⟨p, hp, h1, h2⟩
    rw [show (getN c7Store 0).cls.params = [⟨4, PType.tint⟩] from rfl,
      List.mem_singleton] at hp
    subst hp
    exact absurd h1 (by decide)
  · exact Eq.trans hthm.2.2.2 rfl

/-- C8 (counterexample): node 0 is already attached to context 1, yet
re-attaching it to the same context 1 fails with -1 because its child is
owned by context 2 — "attaching to the same context again succeeds" does
not hold unconditionally. -/
theorem C8_counterexample :
    (getN c8Bad 0).ctx = some 1 ∧
    node_set_ctx 6 c8Bad 0 (some 1) = some (c8Bad, -1, []) :=
  ⟨rfl, rfl⟩

/-- Witness for C8_attach_exclusive: attaching node 0 (owned by context
1) to context 9 fails leaving the store untouched; attaching a coherent
store to context 1 succeeds and stamps the context. -/
theorem C8_witness :
    ((getN c8Bad 0).ctx = some 1 ∧ (9 : Nat) ≠ 1 ∧
      node_set_ctx 6 c8Bad 0 (some 9) = some (c8Bad, -1, [])) ∧
    (CtxCompat c8Good 1 ∧
      node_set_ctx 6 c8Good 0 (some 1) = some (c8GoodAfter, 0, []) ∧
      (getN c8GoodAfter 0).ctx = some 1) := by
  have hcompat : CtxCompat c8Good 1 := by
    intro j
    match j with
    | 0 => exact Or.inr rfl
    | 1 => exact Or.inl rfl
    | n + 2 =>
      rw [getN_oor c8Good (n + 2) (by simp [c8Good])]
      exact Or.inl rfl
  refine ⟨⟨rfl, by decide, C8_attach_exclusive.1 5 c8Bad 0 1 9 rfl (by decide)⟩,
    hcompat, rfl, ?_⟩
  exact (C8_attach_exclusive.2 6 c8Good 0 1 c8GoodAfter 0 [] hcompat rfl).2.2 (by decide)

/-- Witness for C9_ref_unref: unref of a detached node with refcount 2
does not destroy it; ref raises the count to 3. -/
theorem C9_witness :
    ((ngl_node_unrefp c9Store (some 0)).deleted = false ∧
      (getN (ngl_node_unrefp c9Store (some 0)).store 0).refcount = 1 ∧
      (ngl_node_unrefp c9Store (some 0)).nodep = none) ∧
    (getN (ngl_node_ref c9Store 0).1 0).refcount = 3 := by
  have h := C9_ref_unref.2.1 c9Store 0 (by decide)
  refine ⟨⟨by decide, Eq.trans h.2.1 (by decide), h.2.2.1⟩, ?_⟩
  exact Eq.trans (C9_ref_unref.1 c9Store 0 (by decide)).1 (by decide)

end NodeGL
